import Mathlib

/-!
Verification of the P-384 scalar-multiplication core
(`src/crypto/fipsmodule/ec/p384.c`) against its specification.

The field-arithmetic primitive library (`fiat_p384_mul`, `fiat_p384_square`,
`fiat_p384_add`, `fiat_p384_sub`, `fiat_p384_opp`, `fiat_p384_nonzero`,
`fiat_p384_selectznz`, byte/Montgomery conversions) lives in
`third_party/fiat` and is not part of the sources under study; per the
specification (§1, §6) it is a provided primitive library computing in the
field GF(p).  We model field elements as `ZMod p384` and each primitive by
its specified field semantics.  Everything else (point formulas, scalar
recoders, table selection, drivers) is translated line by line from
`p384.c`.
-/

set_option exponentiation.threshold 500
set_option maxRecDepth 200000

/-- The P-384 field prime `p = 2^384 - 2^128 - 2^96 + 2^32 - 1`
(comment at `p384.c:81`). -/
def p384 : ℕ := 2^384 - 2^128 - 2^96 + 2^32 - 1

/-- Field elements.  The C code represents them as 6×64-bit (or 12×32-bit)
limb vectors in Montgomery form; the fiat primitives keep them canonically
reduced, so the abstract value is an element of `ZMod p384`. -/
abbrev Felem := ZMod p384

/-- Modelled from the spec: `fe_mul` of the external fiat field library
(spec §6), field multiplication mod `p`. -/
def fiat_p384_mul (a b : Felem) : Felem := a * b

/-- Modelled from the spec: `fe_square` of the external fiat field library
(spec §6), field squaring mod `p`. -/
def fiat_p384_square (a : Felem) : Felem := a * a

/-- Modelled from the spec: `fe_add` of the external fiat field library
(spec §6), field addition mod `p`. -/
def fiat_p384_add (a b : Felem) : Felem := a + b

/-- Modelled from the spec: `fe_sub` of the external fiat field library
(spec §6), field subtraction mod `p`. -/
def fiat_p384_sub (a b : Felem) : Felem := a - b

/-- Modelled from the spec: `fe_opp` of the external fiat field library
(spec §6), additive inverse mod `p`. -/
def fiat_p384_opp (a : Felem) : Felem := -a

/-- Modelled from the spec: `fe_nonzero` returns a word that is zero iff
`a ≡ 0 (mod p)` (spec §6).  `fiat_p384_nz` (p384.c:41) wraps it; we model
the word by a `Bool` that is `true` iff the argument is non-zero. -/
def fiat_p384_nz (a : Felem) : Bool := decide (a ≠ 0)

/-- `fiat_p384_cmovznz out t z nz` (p384.c:55): `out ← z` if the word `t`
is zero, else `out ← nz`; the word is modelled by a `Bool`. -/
def fiat_p384_cmovznz (t : Bool) (z nz : Felem) : Felem :=
  if t then nz else z

/-- Montgomery representation of 1 (`fiat_p384_one`, p384.c:31); in the
abstract field model it is just `1`. -/
def fiat_p384_one : Felem := 1

/-- `fiat_p384_point_double` (p384.c:194-237): Jacobian doubling,
formula "dbl-2001-b", transcribed operation by operation. -/
def fiat_p384_point_double (x_in y_in z_in : Felem) :
    Felem × Felem × Felem :=
  -- delta = z^2
  let delta := fiat_p384_square z_in
  -- gamma = y^2
  let gamma := fiat_p384_square y_in
  -- beta = x*gamma
  let beta := fiat_p384_mul x_in gamma
  -- alpha = 3*(x-delta)*(x+delta)
  let ftmp := fiat_p384_sub x_in delta
  let ftmp2 := fiat_p384_add x_in delta
  let tmptmp := fiat_p384_add ftmp2 ftmp2
  let ftmp2 := fiat_p384_add ftmp2 tmptmp
  let alpha := fiat_p384_mul ftmp ftmp2
  -- x' = alpha^2 - 8*beta
  let x_out := fiat_p384_square alpha
  let fourbeta := fiat_p384_add beta beta
  let fourbeta := fiat_p384_add fourbeta fourbeta
  let tmptmp := fiat_p384_add fourbeta fourbeta
  let x_out := fiat_p384_sub x_out tmptmp
  -- z' = (y + z)^2 - gamma - delta
  let ftmp := fiat_p384_add y_in z_in
  let z_out := fiat_p384_square ftmp
  let z_out := fiat_p384_sub z_out gamma
  let z_out := fiat_p384_sub z_out delta
  -- y' = alpha*(4*beta - x') - 8*gamma^2
  let y_out := fiat_p384_sub fourbeta x_out
  let gamma := fiat_p384_add gamma gamma
  let gamma := fiat_p384_square gamma
  let y_out := fiat_p384_mul alpha y_out
  let gamma := fiat_p384_add gamma gamma
  let y_out := fiat_p384_sub y_out gamma
  (x_out, y_out, z_out)

/-- `fiat_p384_point_add` (p384.c:248-362): Jacobian addition
"add-2007-bl", adapted for mixed addition (`z2 = 1`, or `z2 = 0` for the
point at infinity), with the constant-time exceptional-case handling. -/
def fiat_p384_point_add (x1 y1 z1 : Felem) (mixed : Bool)
    (x2 y2 z2 : Felem) : Felem × Felem × Felem :=
  let z1nz := fiat_p384_nz z1
  let z2nz := fiat_p384_nz z2
  -- z1z1 = z1**2
  let z1z1 := fiat_p384_square z1
  let us :=
    if !mixed then
      -- z2z2 = z2**2
      let z2z2 := fiat_p384_square z2
      -- u1 = x1*z2z2
      let u1 := fiat_p384_mul x1 z2z2
      -- two_z1z2 = (z1 + z2)**2 - (z1z1 + z2z2) = 2z1z2
      let two_z1z2 := fiat_p384_add z1 z2
      let two_z1z2 := fiat_p384_square two_z1z2
      let two_z1z2 := fiat_p384_sub two_z1z2 z1z1
      let two_z1z2 := fiat_p384_sub two_z1z2 z2z2
      -- s1 = y1 * z2**3
      let s1 := fiat_p384_mul z2 z2z2
      let s1 := fiat_p384_mul s1 y1
      (u1, s1, two_z1z2)
    else
      -- z2 = 1 is assumed (special case z2 = 0 is handled later)
      (x1, y1, fiat_p384_add z1 z1)
  let u1 := us.1
  let s1 := us.2.1
  let two_z1z2 := us.2.2
  -- u2 = x2*z1z1
  let u2 := fiat_p384_mul x2 z1z1
  -- h = u2 - u1
  let h := fiat_p384_sub u2 u1
  let xneq := fiat_p384_nz h
  -- z_out = two_z1z2 * h
  let z_out := fiat_p384_mul h two_z1z2
  -- z1z1z1 = z1 * z1z1
  let z1z1z1 := fiat_p384_mul z1 z1z1
  -- s2 = y2 * z1**3
  let s2 := fiat_p384_mul y2 z1z1z1
  -- r = (s2 - s1)*2
  let r := fiat_p384_sub s2 s1
  let r := fiat_p384_add r r
  let yneq := fiat_p384_nz r
  let is_nontrivial_double := !xneq && !yneq && z1nz && z2nz
  if is_nontrivial_double then
    fiat_p384_point_double x1 y1 z1
  else
    -- I = (2h)**2
    let i := fiat_p384_add h h
    let i := fiat_p384_square i
    -- J = h * I
    let j := fiat_p384_mul h i
    -- V = U1 * I
    let v := fiat_p384_mul u1 i
    -- x_out = r**2 - J - 2V
    let x_out := fiat_p384_square r
    let x_out := fiat_p384_sub x_out j
    let x_out := fiat_p384_sub x_out v
    let x_out := fiat_p384_sub x_out v
    -- y_out = r(V-x_out) - 2 * s1 * J
    let y_out := fiat_p384_sub v x_out
    let y_out := fiat_p384_mul y_out r
    let s1j := fiat_p384_mul s1 j
    let y_out := fiat_p384_sub y_out s1j
    let y_out := fiat_p384_sub y_out s1j
    let x_out := fiat_p384_cmovznz z1nz x2 x_out
    let x3 := fiat_p384_cmovznz z2nz x1 x_out
    let y_out := fiat_p384_cmovznz z1nz y2 y_out
    let y3 := fiat_p384_cmovznz z2nz y1 y_out
    let z_out := fiat_p384_cmovznz z1nz z2 z_out
    let z3 := fiat_p384_cmovznz z2nz z1 z_out
    (x3, y3, z3)

/-! ### C8: doubling the identity yields the identity -/

/-- **C8**: `fiat_p384_point_double` is total on all Jacobian inputs; for
every input with `z_in = 0` the computed `z_out = (y+z)² − γ − δ` is also
`0`, so doubling the identity yields the identity. -/
theorem fiat_p384_point_double_identity (x y z : Felem) (h : z = 0) :
    (fiat_p384_point_double x y z).2.2 = 0 := by
  subst h
  simp only [fiat_p384_point_double, fiat_p384_square, fiat_p384_mul,
    fiat_p384_add, fiat_p384_sub]
  ring

/-- Witness for C8 at the concrete input `(1, 1, 0)`. -/
theorem fiat_p384_point_double_identity_witness :
    (0 : Felem) = 0 ∧ (fiat_p384_point_double 1 1 0).2.2 = 0 :=
  ⟨rfl, fiat_p384_point_double_identity 1 1 0 rfl⟩

/-! ### C5: addition of equal points invokes the doubling formula -/

/-- **C5**: for Jacobian inputs with `z1 ≠ 0`, `z2 ≠ 0`,
`h = u2 − u1 = 0` and `r = 2·(s2 − s1) = 0` (the operands represent the
same curve point), `fiat_p384_point_add` returns exactly the output of
`fiat_p384_point_double` on `(x1, y1, z1)`, so `2·A = A + A`. -/
theorem fiat_p384_point_add_equal_is_double
    (x1 y1 z1 x2 y2 z2 : Felem)
    (hz1 : z1 ≠ 0) (hz2 : z2 ≠ 0)
    (hh : fiat_p384_sub (fiat_p384_mul x2 (fiat_p384_square z1))
        (fiat_p384_mul x1 (fiat_p384_square z2)) = 0)
    (hr : fiat_p384_add
        (fiat_p384_sub (fiat_p384_mul y2
            (fiat_p384_mul z1 (fiat_p384_square z1)))
          (fiat_p384_mul (fiat_p384_mul z2 (fiat_p384_square z2)) y1))
        (fiat_p384_sub (fiat_p384_mul y2
            (fiat_p384_mul z1 (fiat_p384_square z1)))
          (fiat_p384_mul (fiat_p384_mul z2 (fiat_p384_square z2)) y1)) = 0) :
    fiat_p384_point_add x1 y1 z1 false x2 y2 z2 =
      fiat_p384_point_double x1 y1 z1 := by
  simp only [fiat_p384_point_add, Bool.not_false, if_true, fiat_p384_nz,
    hh, hr, hz1, hz2, decide_not, decide_eq_true_eq, ne_eq,
    not_true_eq_false, not_false_eq_true]
  simp

/-- Witness for C5 at the concrete equal points
`(1, 1, 1)` and `(1, 1, 1)`. -/
theorem fiat_p384_point_add_equal_is_double_witness :
    fiat_p384_point_add 1 1 1 false 1 1 1 =
      fiat_p384_point_double 1 1 1 :=
  fiat_p384_point_add_equal_is_double 1 1 1 1 1 1
    (by decide) (by decide) (by decide) (by decide)

/-! ### C3: identity handling in point addition -/

/-- Helper: `fiat_p384_nz` of zero is `false`. -/
theorem fiat_p384_nz_zero {a : Felem} (h : a = 0) : fiat_p384_nz a = false := by
  subst h; simp [fiat_p384_nz]

/-- Helper: `fiat_p384_nz` of a non-zero element is `true`. -/
theorem fiat_p384_nz_of_ne {a : Felem} (h : a ≠ 0) : fiat_p384_nz a = true := by
  simp [fiat_p384_nz, h]

/-- **C3, counterexample**: the claim "if `z1 = 0` the output equals the
second operand" fails when the second operand also has `z2 = 0`: at
`P1 = (0, 0, 0)`, `P2 = (1, 1, 0)` the code returns `P1`, not `P2`,
because the `z2 = 0` conditional move is applied after the `z1 = 0` one. -/
theorem fiat_p384_point_add_c3_counterexample :
    ¬ (fiat_p384_point_add 0 0 0 false 1 1 0 =
        ((1 : Felem), (1 : Felem), (0 : Felem))) := by
  decide

/-- **C3, amended**: if `z2 = 0` the output equals the first operand
`(x1, y1, z1)` (whatever `z1` is); if `z1 = 0` and `z2 ≠ 0` the output
equals the second operand `(x2, y2, z2)`.  The `z2 = 0` selection takes
precedence over the `z1 = 0` one. -/
theorem fiat_p384_point_add_identity (x1 y1 z1 : Felem) (mixed : Bool)
    (x2 y2 z2 : Felem) :
    (z2 = 0 →
      fiat_p384_point_add x1 y1 z1 mixed x2 y2 z2 = (x1, y1, z1)) ∧
    (z1 = 0 → z2 ≠ 0 →
      fiat_p384_point_add x1 y1 z1 mixed x2 y2 z2 = (x2, y2, z2)) := by
  constructor
  · intro h2
    simp only [fiat_p384_point_add, fiat_p384_cmovznz, fiat_p384_nz_zero h2,
      Bool.and_false, Bool.false_and, if_false, Bool.false_eq_true]
  · intro h1 h2
    simp only [fiat_p384_point_add, fiat_p384_cmovznz, fiat_p384_nz_zero h1,
      fiat_p384_nz_of_ne h2, Bool.and_false, Bool.false_and, Bool.and_true,
      if_false, if_true, Bool.false_eq_true]

/-- Witness for C3 (amended) at concrete inputs: adding the identity
`(1, 1, 0)` on the right returns the left operand `(2, 3, 1)`, and adding
it on the left returns the right operand. -/
theorem fiat_p384_point_add_identity_witness :
    fiat_p384_point_add 2 3 1 false 1 1 0 = (2, 3, 1) ∧
    fiat_p384_point_add 1 1 0 false 2 3 1 = (2, 3, 1) :=
  ⟨(fiat_p384_point_add_identity 2 3 1 false 1 1 0).1 rfl,
   (fiat_p384_point_add_identity 1 1 0 false 2 3 1).2 rfl (by decide)⟩

/-! ### C9: constant-time table lookup -/

/-- Loop body of `fiat_p384_select_point` (p384.c:577-582): scan the table
with index `i`, conditionally moving entry `i` into `out` when the word
`mismatch = i ^ idx` is zero. -/
def fiat_p384_select_point_loop (idx : ℕ) :
    ℕ → Felem × Felem × Felem → List (Felem × Felem × Felem) →
    Felem × Felem × Felem
  | _, out, [] => out
  | i, out, t :: ts =>
    let mismatch := i ^^^ idx
    let out0 := fiat_p384_cmovznz (decide (mismatch ≠ 0)) t.1 out.1
    let out1 := fiat_p384_cmovznz (decide (mismatch ≠ 0)) t.2.1 out.2.1
    let out2 := fiat_p384_cmovznz (decide (mismatch ≠ 0)) t.2.2 out.2.2
    fiat_p384_select_point_loop idx (i + 1) (out0, out1, out2) ts

/-- `fiat_p384_select_point` (p384.c:572-583): select the `idx`-th
projective point from the table in constant time; `out` starts zeroed. -/
def fiat_p384_select_point (idx : ℕ)
    (table : List (Felem × Felem × Felem)) : Felem × Felem × Felem :=
  fiat_p384_select_point_loop idx 0 (0, 0, 0) table

/-- Loop body of `fiat_p384_select_point_affine` (p384.c:592-596). -/
def fiat_p384_select_point_affine_loop (idx : ℕ) :
    ℕ → Felem × Felem → List (Felem × Felem) → Felem × Felem
  | _, out, [] => out
  | i, out, t :: ts =>
    let mismatch := i ^^^ idx
    let out0 := fiat_p384_cmovznz (decide (mismatch ≠ 0)) t.1 out.1
    let out1 := fiat_p384_cmovznz (decide (mismatch ≠ 0)) t.2 out.2
    fiat_p384_select_point_affine_loop idx (i + 1) (out0, out1) ts

/-- `fiat_p384_select_point_affine` (p384.c:587-597): select the `idx`-th
affine point from the table in constant time; `out` starts zeroed. -/
def fiat_p384_select_point_affine (idx : ℕ)
    (table : List (Felem × Felem)) : Felem × Felem :=
  fiat_p384_select_point_affine_loop idx 0 (0, 0) table

/-- Once the scan index has passed `idx`, the accumulator never changes. -/
theorem fiat_p384_select_point_loop_past (idx : ℕ) :
    ∀ (ts : List (Felem × Felem × Felem)) (i : ℕ)
      (out : Felem × Felem × Felem), idx < i →
      fiat_p384_select_point_loop idx i out ts = out := by
  intro ts
  induction ts with
  | nil => intro i out _; rfl
  | cons t ts ih =>
    intro i out h
    have hm : i ^^^ idx ≠ 0 := by
      simp only [ne_eq, Nat.xor_eq_zero]
      omega
    simp only [fiat_p384_select_point_loop, fiat_p384_cmovznz, hm,
      ne_eq, not_false_iff, decide_True, if_true]
    exact ih (i + 1) out (by omega)

/-- The scan returns `ts.get (idx − i)` when `idx` lies in range. -/
theorem fiat_p384_select_point_loop_get (idx : ℕ) :
    ∀ (ts : List (Felem × Felem × Felem)) (i : ℕ)
      (out : Felem × Felem × Felem) (hi : i ≤ idx)
      (hlt : idx - i < ts.length),
      fiat_p384_select_point_loop idx i out ts = ts.get ⟨idx - i, hlt⟩ := by
  intro ts
  induction ts with
  | nil => intro i out hi hlt; simp at hlt
  | cons t ts ih =>
    intro i out hi hlt
    rcases Nat.eq_or_lt_of_le hi with heq | hlt2
    · subst heq
      have hm : i ^^^ i = 0 := Nat.xor_self i
      simp only [fiat_p384_select_point_loop, fiat_p384_cmovznz, hm,
        ne_eq, not_true_eq_false, decide_False, if_false, Nat.sub_self]
      rw [fiat_p384_select_point_loop_past i ts (i + 1) _ (by omega)]
      rfl
    · have hm : i ^^^ idx ≠ 0 := by
        simp only [ne_eq, Nat.xor_eq_zero]; omega
      simp only [fiat_p384_select_point_loop, fiat_p384_cmovznz, hm,
        ne_eq, not_false_iff, decide_True, if_true]
      have h1 : idx - (i + 1) < ts.length := by
        simp only [List.length_cons] at hlt; omega
      rw [ih (i + 1) _ (by omega) h1]
      have hix : idx - i = (idx - (i + 1)) + 1 := by omega
      simp only [List.get, hix]

/-- If `idx` lies beyond the scanned range, the accumulator is returned
unchanged. -/
theorem fiat_p384_select_point_loop_out (idx : ℕ) :
    ∀ (ts : List (Felem × Felem × Felem)) (i : ℕ)
      (out : Felem × Felem × Felem), i + ts.length ≤ idx →
      fiat_p384_select_point_loop idx i out ts = out := by
  intro ts
  induction ts with
  | nil => intro i out _; rfl
  | cons t ts ih =>
    intro i out h
    simp only [List.length_cons] at h
    have hm : i ^^^ idx ≠ 0 := by
      simp only [ne_eq, Nat.xor_eq_zero]; omega
    simp only [fiat_p384_select_point_loop, fiat_p384_cmovznz, hm,
      ne_eq, not_false_iff, decide_True, if_true]
    exact ih (i + 1) out (by omega)

/-- Affine analogue of `fiat_p384_select_point_loop_past`. -/
theorem fiat_p384_select_point_affine_loop_past (idx : ℕ) :
    ∀ (ts : List (Felem × Felem)) (i : ℕ) (out : Felem × Felem),
      idx < i → fiat_p384_select_point_affine_loop idx i out ts = out := by
  intro ts
  induction ts with
  | nil => intro i out _; rfl
  | cons t ts ih =>
    intro i out h
    have hm : i ^^^ idx ≠ 0 := by
      simp only [ne_eq, Nat.xor_eq_zero]; omega
    simp only [fiat_p384_select_point_affine_loop, fiat_p384_cmovznz, hm,
      ne_eq, not_false_iff, decide_True, if_true]
    exact ih (i + 1) out (by omega)

/-- Affine analogue of `fiat_p384_select_point_loop_get`. -/
theorem fiat_p384_select_point_affine_loop_get (idx : ℕ) :
    ∀ (ts : List (Felem × Felem)) (i : ℕ) (out : Felem × Felem)
      (hi : i ≤ idx) (hlt : idx - i < ts.length),
      fiat_p384_select_point_affine_loop idx i out ts =
        ts.get ⟨idx - i, hlt⟩ := by
  intro ts
  induction ts with
  | nil => intro i out hi hlt; simp at hlt
  | cons t ts ih =>
    intro i out hi hlt
    rcases Nat.eq_or_lt_of_le hi with heq | hlt2
    · subst heq
      have hm : i ^^^ i = 0 := Nat.xor_self i
      simp only [fiat_p384_select_point_affine_loop, fiat_p384_cmovznz, hm,
        ne_eq, not_true_eq_false, decide_False, if_false, Nat.sub_self]
      rw [fiat_p384_select_point_affine_loop_past i ts (i + 1) _ (by omega)]
      rfl
    · have hm : i ^^^ idx ≠ 0 := by
        simp only [ne_eq, Nat.xor_eq_zero]; omega
      simp only [fiat_p384_select_point_affine_loop, fiat_p384_cmovznz, hm,
        ne_eq, not_false_iff, decide_True, if_true]
      have h1 : idx - (i + 1) < ts.length := by
        simp only [List.length_cons] at hlt; omega
      rw [ih (i + 1) _ (by omega) h1]
      have hix : idx - i = (idx - (i + 1)) + 1 := by omega
      simp only [List.get, hix]

/-- Affine analogue of `fiat_p384_select_point_loop_out`. -/
theorem fiat_p384_select_point_affine_loop_out (idx : ℕ) :
    ∀ (ts : List (Felem × Felem)) (i : ℕ) (out : Felem × Felem),
      i + ts.length ≤ idx →
      fiat_p384_select_point_affine_loop idx i out ts = out := by
  intro ts
  induction ts with
  | nil => intro i out _; rfl
  | cons t ts ih =>
    intro i out h
    simp only [List.length_cons] at h
    have hm : i ^^^ idx ≠ 0 := by
      simp only [ne_eq, Nat.xor_eq_zero]; omega
    simp only [fiat_p384_select_point_affine_loop, fiat_p384_cmovznz, hm,
      ne_eq, not_false_iff, decide_True, if_true]
    exact ih (i + 1) out (by omega)

/-- **C9**: for every table and index, `fiat_p384_select_point` copies
exactly entry `table[idx]` to the output when `idx < table_size`, and
writes the all-zero point when `idx ≥ table_size`; likewise for
`fiat_p384_select_point_affine`. -/
theorem fiat_p384_select_point_spec (idx : ℕ)
    (table : List (Felem × Felem × Felem))
    (atable : List (Felem × Felem)) :
    (∀ h : idx < table.length,
      fiat_p384_select_point idx table = table.get ⟨idx, h⟩) ∧
    (table.length ≤ idx →
      fiat_p384_select_point idx table = (0, 0, 0)) ∧
    (∀ h : idx < atable.length,
      fiat_p384_select_point_affine idx atable = atable.get ⟨idx, h⟩) ∧
    (atable.length ≤ idx →
      fiat_p384_select_point_affine idx atable = (0, 0)) := by
  refine ⟨fun h => ?_, fun h => ?_, fun h => ?_, fun h => ?_⟩
  · have := fiat_p384_select_point_loop_get idx table 0 (0, 0, 0)
      (Nat.zero_le idx) (by simpa using h)
    simpa [fiat_p384_select_point] using this
  · exact fiat_p384_select_point_loop_out idx table 0 (0, 0, 0)
      (by simpa using h)
  · have := fiat_p384_select_point_affine_loop_get idx atable 0 (0, 0)
      (Nat.zero_le idx) (by simpa using h)
    simpa [fiat_p384_select_point_affine] using this
  · exact fiat_p384_select_point_affine_loop_out idx atable 0 (0, 0)
      (by simpa using h)

/-- Witness for C9 on a concrete two-entry table: index 1 selects the
second entry, index 5 (out of range) yields the zero point. -/
theorem fiat_p384_select_point_spec_witness :
    fiat_p384_select_point 1 [(1, 2, 3), (4, 5, 6)] = (4, 5, 6) ∧
    fiat_p384_select_point 5 [(1, 2, 3), (4, 5, 6)] = (0, 0, 0) ∧
    fiat_p384_select_point_affine 1 [(1, 2), (4, 5)] = (4, 5) ∧
    fiat_p384_select_point_affine 5 [(1, 2), (4, 5)] = (0, 0) :=
  ⟨(fiat_p384_select_point_spec 1 [(1, 2, 3), (4, 5, 6)] [(1, 2), (4, 5)]).1
      (by decide),
   (fiat_p384_select_point_spec 5 [(1, 2, 3), (4, 5, 6)] [(1, 2), (4, 5)]).2.1
      (by decide),
   (fiat_p384_select_point_spec 1 [(1, 2, 3), (4, 5, 6)] [(1, 2), (4, 5)]).2.2.1
      (by decide),
   (fiat_p384_select_point_spec 5 [(1, 2, 3), (4, 5, 6)] [(1, 2), (4, 5)]).2.2.2
      (by decide)⟩

/-! ### Scalar bytes, `fiat_p384_get_bit`, and the two recoders -/

/-- Little-endian value of a byte buffer (the `EC_SCALAR.bytes` field is a
48-byte little-endian integer, spec §3 "Scalar"). -/
def bytes_val : List ℕ → ℕ
  | [] => 0
  | b :: bs => b + 256 * bytes_val bs

/-- A well-formed scalar buffer: 48 bytes, each below 256 (`uint8_t`). -/
def ScalarBytes (l : List ℕ) : Prop := l.length = 48 ∧ ∀ b ∈ l, b < 256

/-- `fiat_p384_get_bit` (p384.c:510-515): returns the `i`-th bit of `in`,
or `0` when `i < 0` or `i ≥ 384`. -/
def fiat_p384_get_bit (l : List ℕ) (i : ℤ) : ℕ :=
  if i < 0 ∨ 384 ≤ i then 0
  else (l.getD (i.toNat >>> 3) 0 >>> (i.toNat &&& 7)) &&& 1

/-- `FIAT_P384_SCALAR_RADIX` (p384.c:518). -/
def FIAT_P384_SCALAR_RADIX : ℕ := 5

/-- `FIAT_P384_SCALAR_DRADIX` (p384.c:519). -/
def FIAT_P384_SCALAR_DRADIX : ℤ := 32

/-- `FIAT_P384_SCALAR_DRADIX_WNAF` (p384.c:520). -/
def FIAT_P384_SCALAR_DRADIX_WNAF : ℤ := 64

/-- The value of the `window` variable of `fiat_p384_mul_scalar_rwnaf`
(p384.c:529-544) at the start of loop iteration `i`.
Initialisation (p384.c:532): `window = (in[0] & 63) | 1`.
Step (p384.c:534-541): `d = (window & 63) - 32`;
`window = (window - d) >> 5` followed by five bit refills.
`window` is an `int8_t`; C's `window & 63` on the int8 two's-complement
value is the Euclidean remainder `window % 64`, and the arithmetic right
shift `>> 5` is flooring division `/ 32` (Lean's `Int` `%` and `/` are
Euclidean, which for the positive divisors used here coincide with the
two's-complement operations). -/
def rwnaf_window (l : List ℕ) : ℕ → ℤ
  | 0 => ((l.getD 0 0 &&& 63 ||| 1 : ℕ) : ℤ)
  | i + 1 =>
    let window := rwnaf_window l i
    let d := window % 64 - 32
    (window - d) / 32
      + 2 * (fiat_p384_get_bit l ((i + 1) * 5 + 1) : ℤ)
      + 4 * (fiat_p384_get_bit l ((i + 1) * 5 + 2) : ℤ)
      + 8 * (fiat_p384_get_bit l ((i + 1) * 5 + 3) : ℤ)
      + 16 * (fiat_p384_get_bit l ((i + 1) * 5 + 4) : ℤ)
      + 32 * (fiat_p384_get_bit l ((i + 1) * 5 + 5) : ℤ)

/-- `fiat_p384_mul_scalar_rwnaf` (p384.c:529-544): the 77 output digits;
`out[i] = (window_i & 63) - 32` for `i < 76` (p384.c:534-535) and
`out[76] = window_76` (p384.c:543). -/
def fiat_p384_mul_scalar_rwnaf (l : List ℕ) : List ℤ :=
  (List.range 76).map (fun i => rwnaf_window l i % 64 - 32)
    ++ [rwnaf_window l 76]

/-- The digit computed from a window value by `fiat_p384_mul_scalar_wnaf`
(p384.c:557-561): `0` if the window is even, otherwise the window's low
6 bits reinterpreted as a two's-complement value in `[-32, 31]`. -/
def wnaf_digit_of (window : ℤ) : ℤ :=
  if window % 2 = 1 then
    if 32 ≤ window % 64 then window % 64 - 64 else window % 64
  else 0

/-- The value of the `window` variable of `fiat_p384_mul_scalar_wnaf`
(p384.c:552-568) at the start of loop iteration `i`.
Initialisation (p384.c:555): `window = in[0] & 63`.
Step (p384.c:563-566): `window = (window - d) >> 1` then refill the top
bit: `window += get_bit(in, i + 1 + 5) << 5`. -/
def wnaf_window (l : List ℕ) : ℕ → ℤ
  | 0 => ((l.getD 0 0 &&& 63 : ℕ) : ℤ)
  | i + 1 =>
    let window := wnaf_window l i
    let d := wnaf_digit_of window
    (window - d) / 2 + 32 * (fiat_p384_get_bit l (i + 1 + 5) : ℤ)

/-- `fiat_p384_mul_scalar_wnaf` (p384.c:552-568): the 385 output digits. -/
def fiat_p384_mul_scalar_wnaf (l : List ℕ) : List ℤ :=
  (List.range 385).map (fun i => wnaf_digit_of (wnaf_window l i))

/-! ### C10: `fiat_p384_get_bit` behaviour -/

/-- Bits of a little-endian byte buffer are bits of its value. -/
theorem bytes_val_testBit (l : List ℕ) (h : ∀ b ∈ l, b < 256) :
    ∀ k : ℕ, (bytes_val l).testBit k = (l.getD (k / 8) 0).testBit (k % 8) := by
  induction l with
  | nil => intro k; simp [bytes_val]
  | cons b bs ih =>
    intro k
    have hb : b < 2 ^ 8 := h b (List.mem_cons_self b bs)
    have : bytes_val (b :: bs) = 2 ^ 8 * bytes_val bs + b := by
      simp [bytes_val]; ring
    rw [this, Nat.testBit_mul_pow_two_add _ hb]
    by_cases hk : k < 8
    · simp [hk, Nat.div_eq_of_lt hk, Nat.mod_eq_of_lt hk]
    · push_neg at hk
      have h8 : k / 8 = (k - 8) / 8 + 1 := by omega
      have h8' : k % 8 = (k - 8) % 8 := by omega
      rw [if_neg (by omega : ¬ k < 8), h8, h8', List.getD_cons_succ]
      exact ih (fun x hx => h x (List.mem_cons_of_mem b hx)) (k - 8)

/-- A 48-byte buffer has value below `2^384`. -/
theorem bytes_val_lt (l : List ℕ) (h : ∀ b ∈ l, b < 256) :
    bytes_val l < 256 ^ l.length := by
  induction l with
  | nil => simp [bytes_val]
  | cons b bs ih =>
    have hb : b < 256 := h b (List.mem_cons_self b bs)
    have hbs := ih (fun x hx => h x (List.mem_cons_of_mem b hx))
    simp only [bytes_val, List.length_cons, pow_succ]
    calc b + 256 * bytes_val bs < 256 + 256 * bytes_val bs := by omega
    _ ≤ 256 * (bytes_val bs + 1) := by ring_nf; omega
    _ ≤ 256 * 256 ^ bs.length := by
        have : bytes_val bs + 1 ≤ 256 ^ bs.length := hbs
        exact Nat.mul_le_mul_left 256 this
    _ = 256 ^ bs.length * 256 := by ring

/-- At a non-negative index, `fiat_p384_get_bit` reads the corresponding
bit of the buffer's value (positions at or above 384 read as zero). -/
theorem fiat_p384_get_bit_toNat (l : List ℕ) (hs : ScalarBytes l) (i : ℤ)
    (h0 : 0 ≤ i) :
    fiat_p384_get_bit l i = ((bytes_val l).testBit i.toNat).toNat := by
  obtain ⟨hlen, hbytes⟩ := hs
  by_cases hlt : i < 384
  · have : ¬ (i < 0 ∨ 384 ≤ i) := by omega
    simp only [fiat_p384_get_bit, if_neg this]
    rw [bytes_val_testBit l hbytes i.toNat, Nat.toNat_testBit,
      Nat.shiftRight_eq_div_pow, Nat.shiftRight_eq_div_pow,
      Nat.and_one_is_mod]
    have h3 : i.toNat >>> 3 = i.toNat / 8 := by
      rw [Nat.shiftRight_eq_div_pow]
    have h7 : i.toNat &&& 7 = i.toNat % 8 := by
      have : (7 : ℕ) = 2 ^ 3 - 1 := by norm_num
      rw [this, Nat.and_pow_two_sub_one_eq_mod]
    rw [← h3, ← h7, Nat.shiftRight_eq_div_pow]
  · have hge : (384 : ℤ) ≤ i := by omega
    have h1 : fiat_p384_get_bit l i = 0 := by
      simp only [fiat_p384_get_bit, if_pos (Or.inr hge)]
    have h2 : (bytes_val l).testBit i.toNat = false := by
      apply Nat.testBit_eq_false_of_lt
      have := bytes_val_lt l hbytes
      rw [hlen] at this
      calc bytes_val l < 256 ^ 48 := this
      _ = 2 ^ 384 := by norm_num
      _ ≤ 2 ^ i.toNat := Nat.pow_le_pow_right (by norm_num) (by omega)
    rw [h1, h2]; rfl

/-- **C10**: `fiat_p384_get_bit in i` returns bit `i` of the 48-byte
buffer for `0 ≤ i < 384` and returns `0` for `i < 0` and for `i ≥ 384`;
hence for every non-negative index it equals the corresponding bit of the
buffer's 384-bit value (all positions at or above 384 read as zero), so
the scalar recoders that call it never read outside the buffer. -/
theorem fiat_p384_get_bit_spec (l : List ℕ) (hs : ScalarBytes l) (i : ℤ) :
    (i < 0 ∨ 384 ≤ i → fiat_p384_get_bit l i = 0) ∧
    (0 ≤ i → i < 384 →
      fiat_p384_get_bit l i = ((bytes_val l).testBit i.toNat).toNat) ∧
    (0 ≤ i →
      fiat_p384_get_bit l i = ((bytes_val l).testBit i.toNat).toNat) :=
  ⟨fun h => by simp only [fiat_p384_get_bit, if_pos h],
   fun h0 _ => fiat_p384_get_bit_toNat l hs i h0,
   fiat_p384_get_bit_toNat l hs i⟩

/-- Witness for C10: bit 9 of the scalar `2^9` (second byte `2`) is `1`,
bit 500 reads as `0`, bit `-1` reads as `0`. -/
theorem fiat_p384_get_bit_spec_witness :
    fiat_p384_get_bit
      (2 :: List.replicate 47 0) 9 =
      ((bytes_val (2 :: List.replicate 47 0)).testBit 9).toNat ∧
    fiat_p384_get_bit (2 :: List.replicate 47 0) 500 = 0 ∧
    fiat_p384_get_bit (2 :: List.replicate 47 0) (-1) = 0 := by
  have hs : ScalarBytes (2 :: List.replicate 47 0) := by
    constructor
    · decide
    · decide
  exact ⟨(fiat_p384_get_bit_spec _ hs 9).2.1 (by decide) (by decide),
    (fiat_p384_get_bit_spec _ hs 500).1 (by decide),
    (fiat_p384_get_bit_spec _ hs (-1)).1 (by decide)⟩

/-! ### C2: regular-wNAF recoding -/

/-- The scalar with its lowest bit forced to 1, i.e. `s + (1 - s mod 2)`;
this is the value the regular-wNAF digits represent (spec §4.4). -/
def scalar_forced_odd (s : ℕ) : ℕ := s + (1 - s % 2)

/-- `scalar_forced_odd` agrees with the scalar on all bits above bit 0. -/
theorem scalar_forced_odd_div (s k : ℕ) (hk : 1 ≤ k) :
    scalar_forced_odd s / 2 ^ k = s / 2 ^ k := by
  have h2 : scalar_forced_odd s / 2 = s / 2 := by
    unfold scalar_forced_odd; omega
  have e : (2 : ℕ) ^ k = 2 * 2 ^ (k - 1) := by
    rw [← pow_succ']
    congr 1
    omega
  rw [e, ← Nat.div_div_eq_div_mul, h2, Nat.div_div_eq_div_mul]

/-- `scalar_forced_odd` is odd. -/
theorem scalar_forced_odd_mod_two (s : ℕ) : scalar_forced_odd s % 2 = 1 := by
  unfold scalar_forced_odd; omega

/-- Forcing the low bit of a 6-bit value via `| 1`. -/
theorem or_one_of_lt_64 : ∀ x : Fin 64, ((x : ℕ) ||| 1) = 2 * ((x : ℕ) / 2) + 1 := by
  decide

/-- Splitting a remainder: `x % (m·n) = x % m + m·((x/m) % n)`. -/
theorem mod_mul_split (x m n : ℕ) :
    x % (m * n) = x % m + m * ((x / m) % n) := by
  have h1 := Nat.div_add_mod (x % (m * n)) m
  rw [Nat.mod_mul_right_div_self, Nat.mod_mod_of_dvd x (Dvd.intro n rfl)] at h1
  omega

/-- `get_bit` at a non-negative natural index, as a bit of the value. -/
theorem fiat_p384_get_bit_natCast (l : List ℕ) (hs : ScalarBytes l) (n : ℕ) :
    fiat_p384_get_bit l (n : ℤ) = ((bytes_val l).testBit n).toNat := by
  have := fiat_p384_get_bit_toNat l hs (n : ℤ) (by positivity)
  simpa using this

/-- Bits above bit 0 of the forced-odd scalar agree with the scalar. -/
theorem scalar_forced_odd_testBit (s n : ℕ) (hn : 1 ≤ n) :
    (scalar_forced_odd s).testBit n = s.testBit n := by
  rw [Nat.testBit_to_div_mod, Nat.testBit_to_div_mod,
    scalar_forced_odd_div s n hn]

/-- The `window` of the regular-wNAF loop in closed form: at iteration `i`
it equals `2Â·((s' / 2^(5i+1)) mod 32) + 1` where `s'` is the scalar with
its low bit forced to 1. -/
theorem rwnaf_window_closed (l : List ℕ) (hs : ScalarBytes l) :
    ∀ i : ℕ, rwnaf_window l i =
      2 * ((scalar_forced_odd (bytes_val l) / 2 ^ (5 * i + 1)) % 32 : ℕ) + 1 := by
  have hlen := hs.1
  have hbytes := hs.2
  intro i
  induction i with
  | zero =>
    have hb0 : l.getD 0 0 % 256 = bytes_val l % 256 := by
      rcases l with _ | ⟨b, bs⟩
      · simp [bytes_val]
      · have hb : b < 256 := hbytes b (List.mem_cons_self b bs)
        simp only [List.getD_cons_zero, bytes_val]
        omega
    have hb0' : l.getD 0 0 &&& 63 = bytes_val l % 64 := by
      have h63 : (63 : ℕ) = 2 ^ 6 - 1 := by norm_num
      rw [h63, Nat.and_pow_two_sub_one_eq_mod]
      omega
    have hor := or_one_of_lt_64 ⟨bytes_val l % 64, Nat.mod_lt _ (by norm_num)⟩
    simp only [rwnaf_window, hb0']
    rw [hor]
    have hd2 : (bytes_val l % 64) / 2 =
        (scalar_forced_odd (bytes_val l) / 2 ^ (5 * 0 + 1)) % 32 := by
      have := scalar_forced_odd_div (bytes_val l) 1 le_rfl
      simp only [Nat.mul_zero, Nat.zero_add, pow_one] at this ⊢
      unfold scalar_forced_odd at this ⊢
      omega
    rw [hd2]
    push_cast
    ring
  | succ i ih =>
    have hsplit : ∀ j : ℕ,
        scalar_forced_odd (bytes_val l) / 2 ^ (5 * i + 6 + j) =
          scalar_forced_odd (bytes_val l) / 2 ^ (5 * i + 6) / 2 ^ j := by
      intro j
      rw [Nat.div_div_eq_div_mul, ← pow_add]
    have hbit : ∀ k : ℕ, 1 ≤ k → k ≤ 5 →
        fiat_p384_get_bit l (((i : ℤ) + 1) * 5 + (k : ℤ)) =
          (scalar_forced_odd (bytes_val l) / 2 ^ (5 * i + 5 + k)) % 2 := by
      intro k hk1 hk5
      have hgk : ((i : ℤ) + 1) * 5 + (k : ℤ) = ((5 * i + 5 + k : ℕ) : ℤ) := by
        push_cast
        ring
      rw [hgk, fiat_p384_get_bit_natCast l hs]
      rw [← scalar_forced_odd_testBit (bytes_val l) (5 * i + 5 + k) (by omega)]
      rw [Nat.toNat_testBit]
    simp only [rwnaf_window]
    rw [ih]
    have hb1 := hbit 1 (by norm_num) (by norm_num)
    have hb2 := hbit 2 (by norm_num) (by norm_num)
    have hb3 := hbit 3 (by norm_num) (by norm_num)
    have hb4 := hbit 4 (by norm_num) (by norm_num)
    have hb5 := hbit 5 (by norm_num) (by norm_num)
    norm_num at hb1 hb2 hb3 hb4 hb5
    rw [hb1, hb2, hb3, hb4, hb5]
    have e1 : 5 * i + 5 + 1 = 5 * i + 6 + 0 := by omega
    have e2 : 5 * i + 5 + 2 = 5 * i + 6 + 1 := by omega
    have e3 : 5 * i + 5 + 3 = 5 * i + 6 + 2 := by omega
    have e4 : 5 * i + 5 + 4 = 5 * i + 6 + 3 := by omega
    have e5 : 5 * i + 5 + 5 = 5 * i + 6 + 4 := by omega
    rw [e1, e2, e3, e4, e5, hsplit 0, hsplit 1, hsplit 2, hsplit 3, hsplit 4]
    have e6 : 5 * (i + 1) + 1 = 5 * i + 6 := by omega
    rw [e6]
    have hm : (scalar_forced_odd (bytes_val l) / 2 ^ (5 * i + 1)) % 32 < 32 :=
      Nat.mod_lt _ (by norm_num)
    push_cast
    omega

/-- `wsum base [d0, d1, ...] = Σ di · base^i`: the value represented by a
digit string in radix `base`. -/
def wsum (base : ℤ) : List ℤ → ℤ
  | [] => 0
  | d :: ds => d + base * wsum base ds

/-- `wsum` over a snoc. -/
theorem wsum_append_single (base : ℤ) (y : ℤ) :
    ∀ xs : List ℤ, wsum base (xs ++ [y]) = wsum base xs + base ^ xs.length * y := by
  intro xs
  induction xs with
  | nil => simp [wsum]
  | cons x xs ih =>
    simp only [List.cons_append, wsum, List.length_cons, List.append_eq]
    rw [ih]
    ring

/-- `(32 : ℤ)^m = 2^(5m)`. -/
theorem int_pow32 (m : ℕ) : (32 : ℤ) ^ m = 2 ^ (5 * m) := by
  rw [show (32 : ℤ) = 2 ^ 5 by norm_num, ← pow_mul]

/-- Telescoping partial sums of the first `m` regular-wNAF digits. -/
theorem rwnaf_partial_sum (l : List ℕ) (hs : ScalarBytes l) :
    ∀ m : ℕ,
      wsum 32 ((List.range m).map (fun i => rwnaf_window l i % 64 - 32)) =
        ((scalar_forced_odd (bytes_val l) % 2 ^ (5 * m + 1) : ℕ) : ℤ) -
          2 ^ (5 * m) := by
  intro m
  induction m with
  | zero =>
    have h1 := scalar_forced_odd_mod_two (bytes_val l)
    simp only [List.range_zero, List.map_nil, wsum, Nat.mul_zero,
      Nat.zero_add, pow_one, pow_zero, h1]
    norm_num
  | succ m ih =>
    rw [List.range_succ, List.map_append, List.map_cons, List.map_nil,
      wsum_append_single, List.length_map, List.length_range, ih,
      rwnaf_window_closed l hs m]
    have hmlt : (scalar_forced_odd (bytes_val l) / 2 ^ (5 * m + 1)) % 32 < 32 :=
      Nat.mod_lt _ (by norm_num)
    have hmod : (2 * (((scalar_forced_odd (bytes_val l) / 2 ^ (5 * m + 1)) % 32 : ℕ) : ℤ) + 1) % 64 =
        2 * (((scalar_forced_odd (bytes_val l) / 2 ^ (5 * m + 1)) % 32 : ℕ) : ℤ) + 1 := by
      have : (((scalar_forced_odd (bytes_val l) / 2 ^ (5 * m + 1)) % 32 : ℕ) : ℤ) < 32 := by
        exact_mod_cast hmlt
      omega
    rw [hmod]
    have hsplit : scalar_forced_odd (bytes_val l) % 2 ^ (5 * (m + 1) + 1) =
        scalar_forced_odd (bytes_val l) % 2 ^ (5 * m + 1) +
          2 ^ (5 * m + 1) *
            ((scalar_forced_odd (bytes_val l) / 2 ^ (5 * m + 1)) % 32) := by
      have e : (2 : ℕ) ^ (5 * (m + 1) + 1) = 2 ^ (5 * m + 1) * 32 := by
        rw [show (32 : ℕ) = 2 ^ 5 by norm_num, ← pow_add]
        congr 1
      rw [e, mod_mul_split]
    rw [hsplit, int_pow32]
    push_cast
    have p1 : (2 : ℤ) ^ (5 * m + 1) = 2 * 2 ^ (5 * m) := by
      rw [pow_succ]; ring
    have p2 : (2 : ℤ) ^ (5 * (m + 1)) = 32 * 2 ^ (5 * m) := by
      rw [show 5 * (m + 1) = 5 * m + 5 by omega, pow_add]; ring
    rw [p1, p2]
    ring

/-- The full regular-wNAF digit string represents the forced-odd scalar. -/
theorem rwnaf_sum (l : List ℕ) (hs : ScalarBytes l) :
    wsum 32 (fiat_p384_mul_scalar_rwnaf l) =
      (scalar_forced_odd (bytes_val l) : ℤ) := by
  unfold fiat_p384_mul_scalar_rwnaf
  rw [wsum_append_single, List.length_map, List.length_range,
    rwnaf_partial_sum l hs 76, rwnaf_window_closed l hs 76]
  have hslt : bytes_val l < 2 ^ 384 := by
    have := bytes_val_lt l hs.2
    rw [hs.1] at this
    calc bytes_val l < 256 ^ 48 := this
    _ = 2 ^ 384 := by norm_num
  have hse : scalar_forced_odd (bytes_val l) ≤ 2 ^ 384 := by
    unfold scalar_forced_odd
    omega
  have hdiv : scalar_forced_odd (bytes_val l) / 2 ^ 381 < 32 := by
    have : scalar_forced_odd (bytes_val l) / 2 ^ 381 ≤ 2 ^ 384 / 2 ^ 381 :=
      Nat.div_le_div_right hse
    have h8 : (2 : ℕ) ^ 384 / 2 ^ 381 = 8 := by norm_num
    omega
  have e1 : 5 * 76 + 1 = 381 := by norm_num
  rw [e1]
  have hmod : (scalar_forced_odd (bytes_val l) / 2 ^ 381) % 32 =
      scalar_forced_odd (bytes_val l) / 2 ^ 381 := Nat.mod_eq_of_lt hdiv
  rw [hmod, int_pow32]
  have hdm := Nat.div_add_mod (scalar_forced_odd (bytes_val l)) (2 ^ 381)
  have p1 : (2 : ℤ) ^ (5 * 76) = 2 ^ 380 := by norm_num
  rw [p1]
  set A : ℤ := ((scalar_forced_odd (bytes_val l) / 2 ^ 381 : ℕ) : ℤ) with hA
  set B : ℤ := ((scalar_forced_odd (bytes_val l) % 2 ^ 381 : ℕ) : ℤ) with hB
  have key : (scalar_forced_odd (bytes_val l) : ℤ) = 2 ^ 381 * A + B := by
    rw [hA, hB]
    exact_mod_cast hdm.symm
  rw [key]
  have p2 : (2 : ℤ) ^ 381 = 2 * 2 ^ 380 := by norm_num
  rw [p2]
  ring

/-- The top window after 76 iterations is `2·mu + 1` with `mu ≤ 8`. -/
theorem rwnaf_window76 (l : List ℕ) (hs : ScalarBytes l) :
    ∃ mu : ℕ, mu ≤ 8 ∧ rwnaf_window l 76 = 2 * (mu : ℤ) + 1 := by
  have hslt : bytes_val l < 2 ^ 384 := by
    have := bytes_val_lt l hs.2
    rw [hs.1] at this
    calc bytes_val l < 256 ^ 48 := this
    _ = 2 ^ 384 := by norm_num
  have hse : scalar_forced_odd (bytes_val l) ≤ 2 ^ 384 := by
    unfold scalar_forced_odd; omega
  have hdiv : scalar_forced_odd (bytes_val l) / 2 ^ 381 ≤ 8 := by
    have h1 : scalar_forced_odd (bytes_val l) / 2 ^ 381 ≤ 2 ^ 384 / 2 ^ 381 :=
      Nat.div_le_div_right hse
    have h8 : (2 : ℕ) ^ 384 / 2 ^ 381 = 8 := by norm_num
    omega
  refine ⟨scalar_forced_odd (bytes_val l) / 2 ^ 381, hdiv, ?_⟩
  have := rwnaf_window_closed l hs 76
  rw [this]
  have e1 : 5 * 76 + 1 = 381 := by norm_num
  rw [e1, Nat.mod_eq_of_lt (by omega)]

/-- `getD` at the length of the prefix of a snoc reads the last element. -/
theorem getD_append_snoc_length (w d : ℤ) :
    ∀ xs : List ℤ, (xs ++ [w]).getD xs.length d = w := by
  intro xs
  induction xs with
  | nil => rfl
  | cons x xs ih => simpa using ih

/-- **C2**: `fiat_p384_mul_scalar_rwnaf` produces exactly 77 digits, every
digit odd and in `[−31, 31]` with no zero digits, the final digit
non-negative, and `Σ dᵢ·2^(5i) = s + (1 − (s mod 2))`. -/
theorem fiat_p384_mul_scalar_rwnaf_spec (l : List ℕ) (hs : ScalarBytes l) :
    (fiat_p384_mul_scalar_rwnaf l).length = 77 ∧
    (∀ d ∈ fiat_p384_mul_scalar_rwnaf l,
      d % 2 = 1 ∧ -31 ≤ d ∧ d ≤ 31 ∧ d ≠ 0) ∧
    0 ≤ (fiat_p384_mul_scalar_rwnaf l).getD 76 0 ∧
    wsum 32 (fiat_p384_mul_scalar_rwnaf l) =
      (bytes_val l : ℤ) + (1 - (bytes_val l : ℤ) % 2) := by
  refine ⟨?_, ?_, ?_, ?_⟩
  · simp [fiat_p384_mul_scalar_rwnaf]
  · intro d hd
    unfold fiat_p384_mul_scalar_rwnaf at hd
    rcases List.mem_append.mp hd with hmem | hmem
    · obtain ⟨i, _, rfl⟩ := List.mem_map.mp hmem
      rw [rwnaf_window_closed l hs i]
      have hmlt : (scalar_forced_odd (bytes_val l) / 2 ^ (5 * i + 1)) % 32 < 32 :=
        Nat.mod_lt _ (by norm_num)
      have hcast :
          (((scalar_forced_odd (bytes_val l) / 2 ^ (5 * i + 1)) % 32 : ℕ) : ℤ) < 32 := by
        exact_mod_cast hmlt
      have hcast0 :
          (0 : ℤ) ≤ (((scalar_forced_odd (bytes_val l) / 2 ^ (5 * i + 1)) % 32 : ℕ) : ℤ) :=
        Int.natCast_nonneg _
      omega
    · rw [List.mem_singleton.mp hmem]
      obtain ⟨mu, hmu, hW⟩ := rwnaf_window76 l hs
      rw [hW]
      have : (mu : ℤ) ≤ 8 := by exact_mod_cast hmu
      have h0 : (0 : ℤ) ≤ (mu : ℤ) := Int.natCast_nonneg _
      omega
  · obtain ⟨mu, hmu, hW⟩ := rwnaf_window76 l hs
    unfold fiat_p384_mul_scalar_rwnaf
    have hlen76 :
        (List.map (fun i => rwnaf_window l i % 64 - 32) (List.range 76)).length = 76 := by
      simp
    nth_rewrite 3 [show (76 : ℕ) =
        (List.map (fun i => rwnaf_window l i % 64 - 32) (List.range 76)).length
        from hlen76.symm]
    rw [getD_append_snoc_length]
    rw [hW]
    have h0 : (0 : ℤ) ≤ (mu : ℤ) := Int.natCast_nonneg _
    omega
  · rw [rwnaf_sum l hs]
    unfold scalar_forced_odd
    omega

/-- Witness for C2 at the concrete scalar `1` (first byte 1, rest 0). -/
theorem fiat_p384_mul_scalar_rwnaf_spec_witness :
    (fiat_p384_mul_scalar_rwnaf (1 :: List.replicate 47 0)).length = 77 ∧
    (∀ d ∈ fiat_p384_mul_scalar_rwnaf (1 :: List.replicate 47 0),
      d % 2 = 1 ∧ -31 ≤ d ∧ d ≤ 31 ∧ d ≠ 0) ∧
    0 ≤ (fiat_p384_mul_scalar_rwnaf (1 :: List.replicate 47 0)).getD 76 0 ∧
    wsum 32 (fiat_p384_mul_scalar_rwnaf (1 :: List.replicate 47 0)) =
      (bytes_val (1 :: List.replicate 47 0) : ℤ) +
        (1 - (bytes_val (1 :: List.replicate 47 0) : ℤ) % 2) :=
  fiat_p384_mul_scalar_rwnaf_spec (1 :: List.replicate 47 0)
    ⟨by decide, by decide⟩

/-! ### C4: textbook wNAF recoding -/

/-- `fiat_p384_get_bit` is a bit: at most 1. -/
theorem fiat_p384_get_bit_le_one (l : List ℕ) (i : ℤ) :
    fiat_p384_get_bit l i ≤ 1 := by
  unfold fiat_p384_get_bit
  split
  · omega
  · rw [Nat.and_one_is_mod]
    omega

/-- The low six bits of byte 0 are the scalar value mod 64. -/
theorem getD0_and_63 (l : List ℕ) (hs : ScalarBytes l) :
    (l.getD 0 0 &&& 63 : ℕ) = bytes_val l % 64 := by
  have hb0 : l.getD 0 0 % 256 = bytes_val l % 256 := by
    rcases l with _ | ⟨b, bs⟩
    · simp [bytes_val]
    · have hb : b < 256 := hs.2 b (List.mem_cons_self b bs)
      simp only [List.getD_cons_zero, bytes_val]
      omega
  have h63 : (63 : ℕ) = 2 ^ 6 - 1 := by norm_num
  rw [h63, Nat.and_pow_two_sub_one_eq_mod]
  omega

/-- The wNAF window stays within `[0, 64]`. -/
theorem wnaf_window_bounds (l : List ℕ) :
    ∀ i, 0 ≤ wnaf_window l i ∧ wnaf_window l i ≤ 64 := by
  intro i
  induction i with
  | zero =>
    simp only [wnaf_window]
    constructor
    · exact Int.natCast_nonneg _
    · have h63 : (63 : ℕ) = 2 ^ 6 - 1 := by norm_num
      have : l.getD 0 0 &&& 63 < 64 := by
        rw [h63, Nat.and_pow_two_sub_one_eq_mod]
        omega
      exact_mod_cast this.le.trans (by norm_num)
  | succ i ih =>
    simp only [wnaf_window]
    have hg : (fiat_p384_get_bit l ((i : ℤ) + 1 + 5) : ℤ) ≤ 1 := by
      exact_mod_cast fiat_p384_get_bit_le_one l _
    have hg0 : (0 : ℤ) ≤ (fiat_p384_get_bit l ((i : ℤ) + 1 + 5) : ℤ) :=
      Int.natCast_nonneg _
    unfold wnaf_digit_of
    split_ifs <;> omega

/-- The wNAF digit of a window value is zero or odd in `[−31, 31]`. -/
theorem wnaf_digit_of_range (V : ℤ) (h0 : 0 ≤ V) (h64 : V ≤ 64) :
    wnaf_digit_of V = 0 ∨
      (wnaf_digit_of V % 2 = 1 ∧ -31 ≤ wnaf_digit_of V ∧ wnaf_digit_of V ≤ 31) := by
  unfold wnaf_digit_of
  split_ifs <;> omega

/-- Dividing out the emitted digit is exact. -/
theorem wnaf_sub_digit_div (V : ℤ) (h0 : 0 ≤ V) (h64 : V ≤ 64) :
    (V - wnaf_digit_of V) / 2 * 2 = V - wnaf_digit_of V := by
  unfold wnaf_digit_of
  split_ifs <;> omega

/-- Partial-sum invariant of the textbook-wNAF loop:
after `m` digits, `Σ dⱼ·2ʲ + window·2^m = s mod 2^(m+6)`. -/
theorem wnaf_partial_sum (l : List ℕ) (hs : ScalarBytes l) :
    ∀ m : ℕ,
      wsum 2 ((List.range m).map (fun i => wnaf_digit_of (wnaf_window l i))) +
        wnaf_window l m * 2 ^ m = ((bytes_val l % 2 ^ (m + 6) : ℕ) : ℤ) := by
  intro m
  induction m with
  | zero =>
    simp only [List.range_zero, List.map_nil, wsum, pow_zero, mul_one,
      zero_add]
    rw [show wnaf_window l 0 = ((l.getD 0 0 &&& 63 : ℕ) : ℤ) from rfl,
      getD0_and_63 l hs]
    norm_num
  | succ m ih =>
    rw [List.range_succ, List.map_append, List.map_cons, List.map_nil,
      wsum_append_single, List.length_map, List.length_range]
    have hb := wnaf_window_bounds l m
    have hQ := wnaf_sub_digit_div (wnaf_window l m) hb.1 hb.2
    have hwin : wnaf_window l (m + 1) =
        (wnaf_window l m - wnaf_digit_of (wnaf_window l m)) / 2 +
          32 * (fiat_p384_get_bit l ((m : ℤ) + 1 + 5) : ℤ) := rfl
    rw [hwin]
    have hidx : ((m : ℤ) + 1 + 5) = ((m + 6 : ℕ) : ℤ) := by push_cast; ring
    rw [hidx, fiat_p384_get_bit_natCast l hs, Nat.toNat_testBit]
    have hsplit : bytes_val l % 2 ^ (m + 1 + 6) =
        bytes_val l % 2 ^ (m + 6) +
          2 ^ (m + 6) * (bytes_val l / 2 ^ (m + 6) % 2) := by
      have e2 : m + 1 + 6 = m + 6 + 1 := by omega
      rw [e2, pow_succ, mod_mul_split]
    rw [hsplit]
    have p1 : (2 : ℤ) ^ (m + 1) = 2 * 2 ^ m := by rw [pow_succ]; ring
    have p6 : ((2 : ℕ) ^ (m + 6) : ℤ) = 64 * 2 ^ m := by
      push_cast
      rw [pow_add]
      ring
    push_cast at ih ⊢
    rw [p1]
    linear_combination ih + (2 : ℤ) ^ m * hQ

/-- One unfolding of the wNAF window recursion. -/
theorem wnaf_window_step (l : List ℕ) (j : ℕ) :
    wnaf_window l (j + 1) =
      (wnaf_window l j - wnaf_digit_of (wnaf_window l j)) / 2 +
        32 * (fiat_p384_get_bit l ((j : ℤ) + 1 + 5) : ℤ) := rfl

/-- Past bit 383 the refill bit is zero. -/
theorem wnaf_window_no_refill (l : List ℕ) (j : ℕ) (hj : 378 ≤ j) :
    wnaf_window l (j + 1) =
      (wnaf_window l j - wnaf_digit_of (wnaf_window l j)) / 2 := by
  rw [wnaf_window_step]
  have hz : fiat_p384_get_bit l ((j : ℤ) + 1 + 5) = 0 := by
    unfold fiat_p384_get_bit
    rw [if_pos]
    right
    push_cast
    omega
  rw [hz]
  push_cast
  ring

/-- Halving decay of the window once refills stop. -/
theorem wnaf_half_decay (V : ℤ) (h0 : 0 ≤ V) :
    (V ≤ 64 → (V - wnaf_digit_of V) / 2 ≤ 32) ∧
    (V ≤ 32 → (V - wnaf_digit_of V) / 2 ≤ 16) ∧
    (V ≤ 16 → (V - wnaf_digit_of V) / 2 ≤ 8) ∧
    (V ≤ 8 → (V - wnaf_digit_of V) / 2 ≤ 4) ∧
    (V ≤ 4 → (V - wnaf_digit_of V) / 2 ≤ 2) ∧
    (V ≤ 2 → (V - wnaf_digit_of V) / 2 ≤ 1) ∧
    (V ≤ 1 → (V - wnaf_digit_of V) / 2 ≤ 0) := by
  unfold wnaf_digit_of
  split_ifs <;> omega

/-- After the last scalar bit is consumed the window drains to zero. -/
theorem wnaf_window_385 (l : List ℕ) : wnaf_window l 385 = 0 := by
  have h0 : ∀ j, 0 ≤ wnaf_window l j := fun j => (wnaf_window_bounds l j).1
  have s379 : wnaf_window l 379 ≤ 32 := by
    rw [show (379 : ℕ) = 378 + 1 from rfl, wnaf_window_no_refill l 378 le_rfl]
    exact (wnaf_half_decay _ (h0 378)).1 (wnaf_window_bounds l 378).2
  have s380 : wnaf_window l 380 ≤ 16 := by
    rw [show (380 : ℕ) = 379 + 1 from rfl,
      wnaf_window_no_refill l 379 (by norm_num)]
    exact (wnaf_half_decay _ (h0 379)).2.1 s379
  have s381 : wnaf_window l 381 ≤ 8 := by
    rw [show (381 : ℕ) = 380 + 1 from rfl,
      wnaf_window_no_refill l 380 (by norm_num)]
    exact (wnaf_half_decay _ (h0 380)).2.2.1 s380
  have s382 : wnaf_window l 382 ≤ 4 := by
    rw [show (382 : ℕ) = 381 + 1 from rfl,
      wnaf_window_no_refill l 381 (by norm_num)]
    exact (wnaf_half_decay _ (h0 381)).2.2.2.1 s381
  have s383 : wnaf_window l 383 ≤ 2 := by
    rw [show (383 : ℕ) = 382 + 1 from rfl,
      wnaf_window_no_refill l 382 (by norm_num)]
    exact (wnaf_half_decay _ (h0 382)).2.2.2.2.1 s382
  have s384 : wnaf_window l 384 ≤ 1 := by
    rw [show (384 : ℕ) = 383 + 1 from rfl,
      wnaf_window_no_refill l 383 (by norm_num)]
    exact (wnaf_half_decay _ (h0 383)).2.2.2.2.2.1 s383
  have s385 : wnaf_window l 385 ≤ 0 := by
    rw [show (385 : ℕ) = 384 + 1 from rfl,
      wnaf_window_no_refill l 384 (by norm_num)]
    exact (wnaf_half_decay _ (h0 384)).2.2.2.2.2.2 s384
  have := h0 385
  omega

/-- The full textbook-wNAF digit string represents the scalar. -/
theorem wnaf_sum (l : List ℕ) (hs : ScalarBytes l) :
    wsum 2 (fiat_p384_mul_scalar_wnaf l) = (bytes_val l : ℤ) := by
  have h := wnaf_partial_sum l hs 385
  rw [wnaf_window_385, zero_mul, add_zero] at h
  have hslt : bytes_val l < 2 ^ 384 := by
    have := bytes_val_lt l hs.2
    rw [hs.1] at this
    calc bytes_val l < 256 ^ 48 := this
    _ = 2 ^ 384 := by norm_num
  have hmod : bytes_val l % 2 ^ (385 + 6) = bytes_val l :=
    Nat.mod_eq_of_lt (by calc bytes_val l < 2 ^ 384 := hslt
      _ ≤ 2 ^ 391 := Nat.pow_le_pow_right (by norm_num) (by norm_num))
  rw [hmod] at h
  exact h

/-- After a non-zero digit the halved window is a multiple of 32. -/
theorem wnaf_gap_dvd32 (V : ℤ) (h0 : 0 ≤ V) (h64 : V ≤ 64)
    (hd : wnaf_digit_of V ≠ 0) : (32 : ℤ) ∣ (V - wnaf_digit_of V) / 2 := by
  unfold wnaf_digit_of at hd ⊢
  split_ifs at hd ⊢ <;> omega

/-- Divisibility of the window forces zero digits and transfers, halved,
to the next window. -/
theorem wnaf_dvd_transfer (V g : ℤ) :
    ((32 : ℤ) ∣ V → wnaf_digit_of V = 0 ∧
      (16 : ℤ) ∣ (V - wnaf_digit_of V) / 2 + 32 * g) ∧
    ((16 : ℤ) ∣ V → wnaf_digit_of V = 0 ∧
      (8 : ℤ) ∣ (V - wnaf_digit_of V) / 2 + 32 * g) ∧
    ((8 : ℤ) ∣ V → wnaf_digit_of V = 0 ∧
      (4 : ℤ) ∣ (V - wnaf_digit_of V) / 2 + 32 * g) ∧
    ((4 : ℤ) ∣ V → wnaf_digit_of V = 0 ∧
      (2 : ℤ) ∣ (V - wnaf_digit_of V) / 2 + 32 * g) ∧
    ((2 : ℤ) ∣ V → wnaf_digit_of V = 0) := by
  unfold wnaf_digit_of
  split_ifs <;> omega

/-- A non-zero wNAF digit is followed by four zero digits. -/
theorem wnaf_digit_gap (l : List ℕ) (i : ℕ)
    (hd : wnaf_digit_of (wnaf_window l i) ≠ 0) :
    wnaf_digit_of (wnaf_window l (i + 1)) = 0 ∧
    wnaf_digit_of (wnaf_window l (i + 2)) = 0 ∧
    wnaf_digit_of (wnaf_window l (i + 3)) = 0 ∧
    wnaf_digit_of (wnaf_window l (i + 4)) = 0 := by
  have hb := wnaf_window_bounds l i
  have h32 : (32 : ℤ) ∣ wnaf_window l (i + 1) := by
    rw [wnaf_window_step]
    exact dvd_add (wnaf_gap_dvd32 _ hb.1 hb.2 hd) ⟨_, rfl⟩
  have h16 : wnaf_digit_of (wnaf_window l (i + 1)) = 0 ∧
      (16 : ℤ) ∣ wnaf_window l (i + 2) := by
    have t := (wnaf_dvd_transfer (wnaf_window l (i + 1))
      ((fiat_p384_get_bit l (((i + 1 : ℕ) : ℤ) + 1 + 5) : ℤ))).1 h32
    refine ⟨t.1, ?_⟩
    rw [show i + 2 = (i + 1) + 1 from rfl, wnaf_window_step]
    exact t.2
  have h8 : wnaf_digit_of (wnaf_window l (i + 2)) = 0 ∧
      (8 : ℤ) ∣ wnaf_window l (i + 3) := by
    have t := (wnaf_dvd_transfer (wnaf_window l (i + 2))
      ((fiat_p384_get_bit l (((i + 2 : ℕ) : ℤ) + 1 + 5) : ℤ))).2.1 h16.2
    refine ⟨t.1, ?_⟩
    rw [show i + 3 = (i + 2) + 1 from rfl, wnaf_window_step]
    exact t.2
  have h4 : wnaf_digit_of (wnaf_window l (i + 3)) = 0 ∧
      (4 : ℤ) ∣ wnaf_window l (i + 4) := by
    have t := (wnaf_dvd_transfer (wnaf_window l (i + 3))
      ((fiat_p384_get_bit l (((i + 3 : ℕ) : ℤ) + 1 + 5) : ℤ))).2.2.1 h8.2
    refine ⟨t.1, ?_⟩
    rw [show i + 4 = (i + 3) + 1 from rfl, wnaf_window_step]
    exact t.2
  have h2 : wnaf_digit_of (wnaf_window l (i + 4)) = 0 := by
    have hdvd2 : (2 : ℤ) ∣ wnaf_window l (i + 4) := dvd_trans ⟨2, rfl⟩ h4.2
    exact (wnaf_dvd_transfer (wnaf_window l (i + 4)) 0).2.2.2.2 hdvd2
  exact ⟨h16.1, h8.1, h4.1, h2⟩

/-- Reading the mapped range list with a default. -/
theorem getD_range_map (dig : ℕ → ℤ) (n i : ℕ) :
    ((List.range n).map dig).getD i 0 = if i < n then dig i else 0 := by
  by_cases h : i < n
  · rw [if_pos h]
    have hlen : i < ((List.range n).map dig).length := by
      simpa using h
    rw [List.getD_eq_getElem _ _ hlen]
    simp
  · rw [if_neg h, List.getD_eq_default]
    simpa using h

/-- **C4**: `fiat_p384_mul_scalar_wnaf` produces exactly 385 digits, each
zero or odd in `[−31, 31]`, with `Σ dᵢ·2ⁱ = s`, and every non-zero digit
followed by at least 4 zero digits. -/
theorem fiat_p384_mul_scalar_wnaf_spec (l : List ℕ) (hs : ScalarBytes l) :
    (fiat_p384_mul_scalar_wnaf l).length = 385 ∧
    (∀ d ∈ fiat_p384_mul_scalar_wnaf l,
      d = 0 ∨ (d % 2 = 1 ∧ -31 ≤ d ∧ d ≤ 31)) ∧
    wsum 2 (fiat_p384_mul_scalar_wnaf l) = (bytes_val l : ℤ) ∧
    (∀ i k : ℕ, (fiat_p384_mul_scalar_wnaf l).getD i 0 ≠ 0 →
      1 ≤ k → k ≤ 4 → (fiat_p384_mul_scalar_wnaf l).getD (i + k) 0 = 0) := by
  refine ⟨by simp [fiat_p384_mul_scalar_wnaf], ?_, wnaf_sum l hs, ?_⟩
  · intro d hd
    obtain ⟨i, _, rfl⟩ := List.mem_map.mp hd
    exact wnaf_digit_of_range _ (wnaf_window_bounds l i).1
      (wnaf_window_bounds l i).2
  · intro i k hne hk1 hk4
    unfold fiat_p384_mul_scalar_wnaf at hne ⊢
    rw [getD_range_map] at hne ⊢
    by_cases hi : i < 385
    · rw [if_pos hi] at hne
      have hgap := wnaf_digit_gap l i hne
      by_cases hik : i + k < 385
      · rw [if_pos hik]
        interval_cases k
        · exact hgap.1
        · exact hgap.2.1
        · exact hgap.2.2.1
        · exact hgap.2.2.2
      · rw [if_neg hik]
    · rw [if_neg hi] at hne
      exact absurd rfl hne

/-- Witness for C4 at the concrete scalar with bytes `33, 1, 0, …, 0`. -/
theorem fiat_p384_mul_scalar_wnaf_spec_witness :
    (fiat_p384_mul_scalar_wnaf (33 :: 1 :: List.replicate 46 0)).length = 385 ∧
    (∀ d ∈ fiat_p384_mul_scalar_wnaf (33 :: 1 :: List.replicate 46 0),
      d = 0 ∨ (d % 2 = 1 ∧ -31 ≤ d ∧ d ≤ 31)) ∧
    wsum 2 (fiat_p384_mul_scalar_wnaf (33 :: 1 :: List.replicate 46 0)) =
      (bytes_val (33 :: 1 :: List.replicate 46 0) : ℤ) ∧
    (∀ i k : ℕ,
      (fiat_p384_mul_scalar_wnaf (33 :: 1 :: List.replicate 46 0)).getD i 0 ≠ 0 →
      1 ≤ k → k ≤ 4 →
      (fiat_p384_mul_scalar_wnaf (33 :: 1 :: List.replicate 46 0)).getD (i + k) 0 = 0) :=
  fiat_p384_mul_scalar_wnaf_spec (33 :: 1 :: List.replicate 46 0)
    ⟨by decide, by decide⟩

/-! ### Primality of the P-384 field prime

`ec_GFp_nistp384_point_get_affine_coordinates` and
`ec_GFp_nistp384_cmp_x_coordinate` are correct because the modulus is
prime (field inversion via Fermat).  We certify primality with Lucas
certificates; `powModF` is a fuel-indexed fast modular exponentiation the
kernel can evaluate. -/

/-- Binary modular exponentiation with an explicit fuel argument. -/
def powModF (p a : ℕ) : ℕ → ℕ → ℕ
  | 0, _ => 1 % p
  | f + 1, e =>
    if e = 0 then 1 % p
    else
      let h := powModF p a f (e / 2)
      if e % 2 = 0 then h * h % p else h * h % p * (a % p) % p

/-- `powModF` computes `a ^ e % p` whenever the fuel covers the exponent. -/
theorem powModF_eq (p a : ℕ) :
    ∀ f e : ℕ, e < 2 ^ f → powModF p a f e = a ^ e % p := by
  intro f
  induction f with
  | zero =>
    intro e he
    have h0 : e = 0 := by
      have : (2 : ℕ) ^ 0 = 1 := pow_zero 2
      omega
    subst h0
    simp [powModF]
  | succ f ih =>
    intro e he
    by_cases h0 : e = 0
    · subst h0
      simp [powModF]
    · have hhalf : e / 2 < 2 ^ f := by
        rw [pow_succ] at he
        omega
      have hrec := ih (e / 2) hhalf
      by_cases hpar : e % 2 = 0
      · simp only [powModF, if_neg h0, if_pos hpar]
        rw [hrec, ← Nat.mul_mod, ← pow_add]
        have he2 : e / 2 + e / 2 = e := by omega
        rw [he2]
      · simp only [powModF, if_neg h0, if_neg hpar]
        rw [hrec]
        conv_rhs => rw [show e = e / 2 + e / 2 + 1 by omega, pow_add, pow_add,
          pow_one, Nat.mul_mod, Nat.mul_mod (a ^ (e / 2)) (a ^ (e / 2))]

/-- Fermat-check helper: if the fast exponentiation returns `1 % p`, the
corresponding `ZMod` power is `1`. -/
theorem powModF_fermat (p a f : ℕ) (hp : 1 < p) (he : p - 1 < 2 ^ f)
    (hv : powModF p a f (p - 1) = 1 % p) :
    (a : ZMod p) ^ (p - 1) = 1 := by
  have h := powModF_eq p a f (p - 1) he
  rw [hv] at h
  have hcast : (((a ^ (p - 1)) % p : ℕ) : ZMod p) = ((1 % p : ℕ) : ZMod p) := by
    rw [← h]
  rw [ZMod.natCast_mod, ZMod.natCast_mod] at hcast
  push_cast at hcast
  rw [← hcast]

/-- Non-unity helper: if the fast exponentiation returns `c` with
`c < p` and `c ≠ 1`, the corresponding `ZMod` power is not `1`. -/
theorem powModF_ne_one (p a f e c : ℕ) (hp : 1 < p) (he : e < 2 ^ f)
    (hv : powModF p a f e = c) (hc : c < p) (hne : c ≠ 1) :
    (a : ZMod p) ^ e ≠ 1 := by
  have h := powModF_eq p a f e he
  rw [hv] at h
  intro hcontra
  have hcast : ((a ^ e % p : ℕ) : ZMod p) = ((c : ℕ) : ZMod p) := by rw [h]
  rw [ZMod.natCast_mod] at hcast
  push_cast at hcast
  rw [hcontra] at hcast
  have h1 : ((1 : ℕ) : ZMod p) = ((c : ℕ) : ZMod p) := by
    push_cast
    exact hcast
  rw [ZMod.natCast_eq_natCast_iff] at h1
  unfold Nat.ModEq at h1
  rw [Nat.mod_eq_of_lt hp, Nat.mod_eq_of_lt hc] at h1
  exact hne h1.symm

/-- Lucas primality from an explicit multiset of prime factors of `p−1`
together with a witness `a`. -/
theorem lucas_cert (p a : ℕ) (fs : List ℕ)
    (hprod : fs.prod = p - 1)
    (hfs : ∀ q ∈ fs, Nat.Prime q)
    (ha : (a : ZMod p) ^ (p - 1) = 1)
    (hd : ∀ q ∈ fs, (a : ZMod p) ^ ((p - 1) / q) ≠ 1) :
    Nat.Prime p := by
  apply lucas_primality p (a : ZMod p) ha
  intro q hq hqdvd
  have hq' : q ∣ fs.prod := hprod ▸ hqdvd
  obtain ⟨x, hx, hdvd⟩ := (Prime.dvd_prod_iff hq.prime).mp hq'
  have hxp : Nat.Prime x := hfs x hx
  have : q = x := (Nat.prime_dvd_prime_iff_eq hq hxp).mp hdvd
  subst this
  exact hd q hx

/-! Primality certificates: leaf primes by `norm_num`, larger primes
by Lucas certificates built from the factorisation of `p - 1`. -/

/-- `2` is prime (trial division). -/
theorem nat_prime_2 : Nat.Prime 2 := by norm_num

/-- `3` is prime (trial division). -/
theorem nat_prime_3 : Nat.Prime 3 := by norm_num

/-- `5` is prime (trial division). -/
theorem nat_prime_5 : Nat.Prime 5 := by norm_num

/-- `7` is prime (trial division). -/
theorem nat_prime_7 : Nat.Prime 7 := by norm_num

/-- `11` is prime (trial division). -/
theorem nat_prime_11 : Nat.Prime 11 := by norm_num

/-- `13` is prime (trial division). -/
theorem nat_prime_13 : Nat.Prime 13 := by norm_num

/-- `17` is prime (trial division). -/
theorem nat_prime_17 : Nat.Prime 17 := by norm_num

/-- `19` is prime (trial division). -/
theorem nat_prime_19 : Nat.Prime 19 := by norm_num

/-- `41` is prime (trial division). -/
theorem nat_prime_41 : Nat.Prime 41 := by norm_num

/-- `47` is prime (trial division). -/
theorem nat_prime_47 : Nat.Prime 47 := by norm_num

/-- `59` is prime (trial division). -/
theorem nat_prime_59 : Nat.Prime 59 := by norm_num

/-- `61` is prime (trial division). -/
theorem nat_prime_61 : Nat.Prime 61 := by norm_num

/-- `67` is prime (trial division). -/
theorem nat_prime_67 : Nat.Prime 67 := by norm_num

/-- `97` is prime (trial division). -/
theorem nat_prime_97 : Nat.Prime 97 := by norm_num

/-- `157` is prime (trial division). -/
theorem nat_prime_157 : Nat.Prime 157 := by norm_num

/-- `181` is prime (trial division). -/
theorem nat_prime_181 : Nat.Prime 181 := by norm_num

/-- `211` is prime (trial division). -/
theorem nat_prime_211 : Nat.Prime 211 := by norm_num

/-- `263` is prime (trial division). -/
theorem nat_prime_263 : Nat.Prime 263 := by norm_num

/-- `599` is prime (trial division). -/
theorem nat_prime_599 : Nat.Prime 599 := by norm_num

/-- `661` is prime (trial division). -/
theorem nat_prime_661 : Nat.Prime 661 := by norm_num

/-- `881` is prime (trial division). -/
theorem nat_prime_881 : Nat.Prime 881 := by norm_num

/-- `1373` is prime (trial division). -/
theorem nat_prime_1373 : Nat.Prime 1373 := by norm_num

/-- `2213` is prime (trial division). -/
theorem nat_prime_2213 : Nat.Prime 2213 := by norm_num

/-- `3517` is prime (trial division). -/
theorem nat_prime_3517 : Nat.Prime 3517 := by norm_num

/-- `6317` is prime (trial division). -/
theorem nat_prime_6317 : Nat.Prime 6317 := by norm_num

/-- `8389` is prime (trial division). -/
theorem nat_prime_8389 : Nat.Prime 8389 := by norm_num

/-- `21407` is prime (trial division). -/
theorem nat_prime_21407 : Nat.Prime 21407 := by norm_num

/-- `38557` is prime (trial division). -/
theorem nat_prime_38557 : Nat.Prime 38557 := by norm_num

/-- `312289` is prime (trial division). -/
theorem nat_prime_312289 : Nat.Prime 312289 := by norm_num

/-- `336757` is prime (trial division). -/
theorem nat_prime_336757 : Nat.Prime 336757 := by norm_num

/-- `363557` is prime (trial division). -/
theorem nat_prime_363557 : Nat.Prime 363557 := by norm_num

/-- `568151` is prime (trial division). -/
theorem nat_prime_568151 : Nat.Prime 568151 := by norm_num

/-- Lucas certificate: `6051631` is prime (witness `6`). -/
theorem nat_prime_6051631 : Nat.Prime 6051631 := by
  apply lucas_cert 6051631 6 [2, 3, 5, 13, 59, 263]
  · decide
  · intro q hq
    simp only [List.mem_cons, List.not_mem_nil, or_false] at hq
    rcases hq with rfl | rfl | rfl | rfl | rfl | rfl
    · exact nat_prime_2
    · exact nat_prime_3
    · exact nat_prime_5
    · exact nat_prime_13
    · exact nat_prime_59
    · exact nat_prime_263
  · exact powModF_fermat 6051631 6 400 (by norm_num) (by decide) (by decide)
  · intro q hq
    simp only [List.mem_cons, List.not_mem_nil, or_false] at hq
    rcases hq with rfl | rfl | rfl | rfl | rfl | rfl
    · exact powModF_ne_one 6051631 6 400 ((6051631 - 1) / 2) 6051630 (by norm_num)
        (by decide) (by decide) (by decide) (by decide)
    · exact powModF_ne_one 6051631 6 400 ((6051631 - 1) / 3) 2319308 (by norm_num)
        (by decide) (by decide) (by decide) (by decide)
    · exact powModF_ne_one 6051631 6 400 ((6051631 - 1) / 5) 2914417 (by norm_num)
        (by decide) (by decide) (by decide) (by decide)
    · exact powModF_ne_one 6051631 6 400 ((6051631 - 1) / 13) 4761539 (by norm_num)
        (by decide) (by decide) (by decide) (by decide)
    · exact powModF_ne_one 6051631 6 400 ((6051631 - 1) / 59) 459731 (by norm_num)
        (by decide) (by decide) (by decide) (by decide)
    · exact powModF_ne_one 6051631 6 400 ((6051631 - 1) / 263) 3172253 (by norm_num)
        (by decide) (by decide) (by decide) (by decide)

/-- Lucas certificate: `105957871` is prime (witness `3`). -/
theorem nat_prime_105957871 : Nat.Prime 105957871 := by
  apply lucas_cert 105957871 3 [2, 3, 5, 19, 211, 881]
  · decide
  · intro q hq
    simp only [List.mem_cons, List.not_mem_nil, or_false] at hq
    rcases hq with rfl | rfl | rfl | rfl | rfl | rfl
    · exact nat_prime_2
    · exact nat_prime_3
    · exact nat_prime_5
    · exact nat_prime_19
    · exact nat_prime_211
    · exact nat_prime_881
  · exact powModF_fermat 105957871 3 400 (by norm_num) (by decide) (by decide)
  · intro q hq
    simp only [List.mem_cons, List.not_mem_nil, or_false] at hq
    rcases hq with rfl | rfl | rfl | rfl | rfl | rfl
    · exact powModF_ne_one 105957871 3 400 ((105957871 - 1) / 2) 105957870 (by norm_num)
        (by decide) (by decide) (by decide) (by decide)
    · exact powModF_ne_one 105957871 3 400 ((105957871 - 1) / 3) 80316652 (by norm_num)
        (by decide) (by decide) (by decide) (by decide)
    · exact powModF_ne_one 105957871 3 400 ((105957871 - 1) / 5) 16253385 (by norm_num)
        (by decide) (by decide) (by decide) (by decide)
    · exact powModF_ne_one 105957871 3 400 ((105957871 - 1) / 19) 21963940 (by norm_num)
        (by decide) (by decide) (by decide) (by decide)
    · exact powModF_ne_one 105957871 3 400 ((105957871 - 1) / 211) 88012322 (by norm_num)
        (by decide) (by decide) (by decide) (by decide)
    · exact powModF_ne_one 105957871 3 400 ((105957871 - 1) / 881) 39588651 (by norm_num)
        (by decide) (by decide) (by decide) (by decide)

/-- Lucas certificate: `246608641` is prime (witness `19`). -/
theorem nat_prime_246608641 : Nat.Prime 246608641 := by
  apply lucas_cert 246608641 19 [2, 2, 2, 2, 2, 2, 2, 2, 3, 3, 5, 21407]
  · decide
  · intro q hq
    simp only [List.mem_cons, List.not_mem_nil, or_false] at hq
    rcases hq with rfl | rfl | rfl | rfl | rfl | rfl | rfl | rfl | rfl | rfl | rfl | rfl
    · exact nat_prime_2
    · exact nat_prime_2
    · exact nat_prime_2
    · exact nat_prime_2
    · exact nat_prime_2
    · exact nat_prime_2
    · exact nat_prime_2
    · exact nat_prime_2
    · exact nat_prime_3
    · exact nat_prime_3
    · exact nat_prime_5
    · exact nat_prime_21407
  · exact powModF_fermat 246608641 19 400 (by norm_num) (by decide) (by decide)
  · intro q hq
    simp only [List.mem_cons, List.not_mem_nil, or_false] at hq
    rcases hq with rfl | rfl | rfl | rfl | rfl | rfl | rfl | rfl | rfl | rfl | rfl | rfl
    · exact powModF_ne_one 246608641 19 400 ((246608641 - 1) / 2) 246608640 (by norm_num)
        (by decide) (by decide) (by decide) (by decide)
    · exact powModF_ne_one 246608641 19 400 ((246608641 - 1) / 2) 246608640 (by norm_num)
        (by decide) (by decide) (by decide) (by decide)
    · exact powModF_ne_one 246608641 19 400 ((246608641 - 1) / 2) 246608640 (by norm_num)
        (by decide) (by decide) (by decide) (by decide)
    · exact powModF_ne_one 246608641 19 400 ((246608641 - 1) / 2) 246608640 (by norm_num)
        (by decide) (by decide) (by decide) (by decide)
    · exact powModF_ne_one 246608641 19 400 ((246608641 - 1) / 2) 246608640 (by norm_num)
        (by decide) (by decide) (by decide) (by decide)
    · exact powModF_ne_one 246608641 19 400 ((246608641 - 1) / 2) 246608640 (by norm_num)
        (by decide) (by decide) (by decide) (by decide)
    · exact powModF_ne_one 246608641 19 400 ((246608641 - 1) / 2) 246608640 (by norm_num)
        (by decide) (by decide) (by decide) (by decide)
    · exact powModF_ne_one 246608641 19 400 ((246608641 - 1) / 2) 246608640 (by norm_num)
        (by decide) (by decide) (by decide) (by decide)
    · exact powModF_ne_one 246608641 19 400 ((246608641 - 1) / 3) 245615074 (by norm_num)
        (by decide) (by decide) (by decide) (by decide)
    · exact powModF_ne_one 246608641 19 400 ((246608641 - 1) / 3) 245615074 (by norm_num)
        (by decide) (by decide) (by decide) (by decide)
    · exact powModF_ne_one 246608641 19 400 ((246608641 - 1) / 5) 180012086 (by norm_num)
        (by decide) (by decide) (by decide) (by decide)
    · exact powModF_ne_one 246608641 19 400 ((246608641 - 1) / 21407) 58970746 (by norm_num)
        (by decide) (by decide) (by decide) (by decide)

/-- Lucas certificate: `513928823` is prime (witness `5`). -/
theorem nat_prime_513928823 : Nat.Prime 513928823 := by
  apply lucas_cert 513928823 5 [2, 11, 59, 599, 661]
  · decide
  · intro q hq
    simp only [List.mem_cons, List.not_mem_nil, or_false] at hq
    rcases hq with rfl | rfl | rfl | rfl | rfl
    · exact nat_prime_2
    · exact nat_prime_11
    · exact nat_prime_59
    · exact nat_prime_599
    · exact nat_prime_661
  · exact powModF_fermat 513928823 5 400 (by norm_num) (by decide) (by decide)
  · intro q hq
    simp only [List.mem_cons, List.not_mem_nil, or_false] at hq
    rcases hq with rfl | rfl | rfl | rfl | rfl
    · exact powModF_ne_one 513928823 5 400 ((513928823 - 1) / 2) 513928822 (by norm_num)
        (by decide) (by decide) (by decide) (by decide)
    · exact powModF_ne_one 513928823 5 400 ((513928823 - 1) / 11) 131799761 (by norm_num)
        (by decide) (by decide) (by decide) (by decide)
    · exact powModF_ne_one 513928823 5 400 ((513928823 - 1) / 59) 101215503 (by norm_num)
        (by decide) (by decide) (by decide) (by decide)
    · exact powModF_ne_one 513928823 5 400 ((513928823 - 1) / 599) 87612387 (by norm_num)
        (by decide) (by decide) (by decide) (by decide)
    · exact powModF_ne_one 513928823 5 400 ((513928823 - 1) / 661) 59899580 (by norm_num)
        (by decide) (by decide) (by decide) (by decide)

/-- Lucas certificate: `532247449` is prime (witness `7`). -/
theorem nat_prime_532247449 : Nat.Prime 532247449 := by
  apply lucas_cert 532247449 7 [2, 2, 2, 3, 61, 363557]
  · decide
  · intro q hq
    simp only [List.mem_cons, List.not_mem_nil, or_false] at hq
    rcases hq with rfl | rfl | rfl | rfl | rfl | rfl
    · exact nat_prime_2
    · exact nat_prime_2
    · exact nat_prime_2
    · exact nat_prime_3
    · exact nat_prime_61
    · exact nat_prime_363557
  · exact powModF_fermat 532247449 7 400 (by norm_num) (by decide) (by decide)
  · intro q hq
    simp only [List.mem_cons, List.not_mem_nil, or_false] at hq
    rcases hq with rfl | rfl | rfl | rfl | rfl | rfl
    · exact powModF_ne_one 532247449 7 400 ((532247449 - 1) / 2) 532247448 (by norm_num)
        (by decide) (by decide) (by decide) (by decide)
    · exact powModF_ne_one 532247449 7 400 ((532247449 - 1) / 2) 532247448 (by norm_num)
        (by decide) (by decide) (by decide) (by decide)
    · exact powModF_ne_one 532247449 7 400 ((532247449 - 1) / 2) 532247448 (by norm_num)
        (by decide) (by decide) (by decide) (by decide)
    · exact powModF_ne_one 532247449 7 400 ((532247449 - 1) / 3) 454001217 (by norm_num)
        (by decide) (by decide) (by decide) (by decide)
    · exact powModF_ne_one 532247449 7 400 ((532247449 - 1) / 61) 440422091 (by norm_num)
        (by decide) (by decide) (by decide) (by decide)
    · exact powModF_ne_one 532247449 7 400 ((532247449 - 1) / 363557) 450188356 (by norm_num)
        (by decide) (by decide) (by decide) (by decide)

/-- Lucas certificate: `2862218959` is prime (witness `3`). -/
theorem nat_prime_2862218959 : Nat.Prime 2862218959 := by
  apply lucas_cert 2862218959 3 [2, 3, 157, 1373, 2213]
  · decide
  · intro q hq
    simp only [List.mem_cons, List.not_mem_nil, or_false] at hq
    rcases hq with rfl | rfl | rfl | rfl | rfl
    · exact nat_prime_2
    · exact nat_prime_3
    · exact nat_prime_157
    · exact nat_prime_1373
    · exact nat_prime_2213
  · exact powModF_fermat 2862218959 3 400 (by norm_num) (by decide) (by decide)
  · intro q hq
    simp only [List.mem_cons, List.not_mem_nil, or_false] at hq
    rcases hq with rfl | rfl | rfl | rfl | rfl
    · exact powModF_ne_one 2862218959 3 400 ((2862218959 - 1) / 2) 2862218958 (by norm_num)
        (by decide) (by decide) (by decide) (by decide)
    · exact powModF_ne_one 2862218959 3 400 ((2862218959 - 1) / 3) 2234447269 (by norm_num)
        (by decide) (by decide) (by decide) (by decide)
    · exact powModF_ne_one 2862218959 3 400 ((2862218959 - 1) / 157) 1967850137 (by norm_num)
        (by decide) (by decide) (by decide) (by decide)
    · exact powModF_ne_one 2862218959 3 400 ((2862218959 - 1) / 1373) 2367682335 (by norm_num)
        (by decide) (by decide) (by decide) (by decide)
    · exact powModF_ne_one 2862218959 3 400 ((2862218959 - 1) / 2213) 609328677 (by norm_num)
        (by decide) (by decide) (by decide) (by decide)

/-- Lucas certificate: `53448597593` is prime (witness `3`). -/
theorem nat_prime_53448597593 : Nat.Prime 53448597593 := by
  apply lucas_cert 53448597593 3 [2, 2, 2, 13, 513928823]
  · decide
  · intro q hq
    simp only [List.mem_cons, List.not_mem_nil, or_false] at hq
    rcases hq with rfl | rfl | rfl | rfl | rfl
    · exact nat_prime_2
    · exact nat_prime_2
    · exact nat_prime_2
    · exact nat_prime_13
    · exact nat_prime_513928823
  · exact powModF_fermat 53448597593 3 400 (by norm_num) (by decide) (by decide)
  · intro q hq
    simp only [List.mem_cons, List.not_mem_nil, or_false] at hq
    rcases hq with rfl | rfl | rfl | rfl | rfl
    · exact powModF_ne_one 53448597593 3 400 ((53448597593 - 1) / 2) 53448597592 (by norm_num)
        (by decide) (by decide) (by decide) (by decide)
    · exact powModF_ne_one 53448597593 3 400 ((53448597593 - 1) / 2) 53448597592 (by norm_num)
        (by decide) (by decide) (by decide) (by decide)
    · exact powModF_ne_one 53448597593 3 400 ((53448597593 - 1) / 2) 53448597592 (by norm_num)
        (by decide) (by decide) (by decide) (by decide)
    · exact powModF_ne_one 53448597593 3 400 ((53448597593 - 1) / 13) 24817932076 (by norm_num)
        (by decide) (by decide) (by decide) (by decide)
    · exact powModF_ne_one 53448597593 3 400 ((53448597593 - 1) / 513928823) 16148915259 (by norm_num)
        (by decide) (by decide) (by decide) (by decide)

/-- Lucas certificate: `807145746439` is prime (witness `3`). -/
theorem nat_prime_807145746439 : Nat.Prime 807145746439 := by
  apply lucas_cert 807145746439 3 [2, 3, 47, 2862218959]
  · decide
  · intro q hq
    simp only [List.mem_cons, List.not_mem_nil, or_false] at hq
    rcases hq with rfl | rfl | rfl | rfl
    · exact nat_prime_2
    · exact nat_prime_3
    · exact nat_prime_47
    · exact nat_prime_2862218959
  · exact powModF_fermat 807145746439 3 400 (by norm_num) (by decide) (by decide)
  · intro q hq
    simp only [List.mem_cons, List.not_mem_nil, or_false] at hq
    rcases hq with rfl | rfl | rfl | rfl
    · exact powModF_ne_one 807145746439 3 400 ((807145746439 - 1) / 2) 807145746438 (by norm_num)
        (by decide) (by decide) (by decide) (by decide)
    · exact powModF_ne_one 807145746439 3 400 ((807145746439 - 1) / 3) 511441570660 (by norm_num)
        (by decide) (by decide) (by decide) (by decide)
    · exact powModF_ne_one 807145746439 3 400 ((807145746439 - 1) / 47) 328485026480 (by norm_num)
        (by decide) (by decide) (by decide) (by decide)
    · exact powModF_ne_one 807145746439 3 400 ((807145746439 - 1) / 2862218959) 719022729739 (by norm_num)
        (by decide) (by decide) (by decide) (by decide)

/-- Lucas certificate: `44925942675193` is prime (witness `5`). -/
theorem nat_prime_44925942675193 : Nat.Prime 44925942675193 := by
  apply lucas_cert 44925942675193 5 [2, 2, 2, 3, 3517, 532247449]
  · decide
  · intro q hq
    simp only [List.mem_cons, List.not_mem_nil, or_false] at hq
    rcases hq with rfl | rfl | rfl | rfl | rfl | rfl
    · exact nat_prime_2
    · exact nat_prime_2
    · exact nat_prime_2
    · exact nat_prime_3
    · exact nat_prime_3517
    · exact nat_prime_532247449
  · exact powModF_fermat 44925942675193 5 400 (by norm_num) (by decide) (by decide)
  · intro q hq
    simp only [List.mem_cons, List.not_mem_nil, or_false] at hq
    rcases hq with rfl | rfl | rfl | rfl | rfl | rfl
    · exact powModF_ne_one 44925942675193 5 400 ((44925942675193 - 1) / 2) 44925942675192 (by norm_num)
        (by decide) (by decide) (by decide) (by decide)
    · exact powModF_ne_one 44925942675193 5 400 ((44925942675193 - 1) / 2) 44925942675192 (by norm_num)
        (by decide) (by decide) (by decide) (by decide)
    · exact powModF_ne_one 44925942675193 5 400 ((44925942675193 - 1) / 2) 44925942675192 (by norm_num)
        (by decide) (by decide) (by decide) (by decide)
    · exact powModF_ne_one 44925942675193 5 400 ((44925942675193 - 1) / 3) 4472867982886 (by norm_num)
        (by decide) (by decide) (by decide) (by decide)
    · exact powModF_ne_one 44925942675193 5 400 ((44925942675193 - 1) / 3517) 10159469825785 (by norm_num)
        (by decide) (by decide) (by decide) (by decide)
    · exact powModF_ne_one 44925942675193 5 400 ((44925942675193 - 1) / 532247449) 37625938650844 (by norm_num)
        (by decide) (by decide) (by decide) (by decide)

/-- Lucas certificate: `1357291859799823621` is prime (witness `2`). -/
theorem nat_prime_1357291859799823621 : Nat.Prime 1357291859799823621 := by
  apply lucas_cert 1357291859799823621 2 [2, 2, 3, 5, 67, 6317, 53448597593]
  · decide
  · intro q hq
    simp only [List.mem_cons, List.not_mem_nil, or_false] at hq
    rcases hq with rfl | rfl | rfl | rfl | rfl | rfl | rfl
    · exact nat_prime_2
    · exact nat_prime_2
    · exact nat_prime_3
    · exact nat_prime_5
    · exact nat_prime_67
    · exact nat_prime_6317
    · exact nat_prime_53448597593
  · exact powModF_fermat 1357291859799823621 2 400 (by norm_num) (by decide) (by decide)
  · intro q hq
    simp only [List.mem_cons, List.not_mem_nil, or_false] at hq
    rcases hq with rfl | rfl | rfl | rfl | rfl | rfl | rfl
    · exact powModF_ne_one 1357291859799823621 2 400 ((1357291859799823621 - 1) / 2) 1357291859799823620 (by norm_num)
        (by decide) (by decide) (by decide) (by decide)
    · exact powModF_ne_one 1357291859799823621 2 400 ((1357291859799823621 - 1) / 2) 1357291859799823620 (by norm_num)
        (by decide) (by decide) (by decide) (by decide)
    · exact powModF_ne_one 1357291859799823621 2 400 ((1357291859799823621 - 1) / 3) 32796128482677337 (by norm_num)
        (by decide) (by decide) (by decide) (by decide)
    · exact powModF_ne_one 1357291859799823621 2 400 ((1357291859799823621 - 1) / 5) 1322781479001732643 (by norm_num)
        (by decide) (by decide) (by decide) (by decide)
    · exact powModF_ne_one 1357291859799823621 2 400 ((1357291859799823621 - 1) / 67) 1229185560539034676 (by norm_num)
        (by decide) (by decide) (by decide) (by decide)
    · exact powModF_ne_one 1357291859799823621 2 400 ((1357291859799823621 - 1) / 6317) 834634304481256685 (by norm_num)
        (by decide) (by decide) (by decide) (by decide)
    · exact powModF_ne_one 1357291859799823621 2 400 ((1357291859799823621 - 1) / 53448597593) 1090557220182166210 (by norm_num)
        (by decide) (by decide) (by decide) (by decide)

/-- Lucas certificate: `529709925838459440593` is prime (witness `3`). -/
theorem nat_prime_529709925838459440593 : Nat.Prime 529709925838459440593 := by
  apply lucas_cert 529709925838459440593 3 [2, 2, 2, 2, 7, 181, 105957871, 246608641]
  · decide
  · intro q hq
    simp only [List.mem_cons, List.not_mem_nil, or_false] at hq
    rcases hq with rfl | rfl | rfl | rfl | rfl | rfl | rfl | rfl
    · exact nat_prime_2
    · exact nat_prime_2
    · exact nat_prime_2
    · exact nat_prime_2
    · exact nat_prime_7
    · exact nat_prime_181
    · exact nat_prime_105957871
    · exact nat_prime_246608641
  · exact powModF_fermat 529709925838459440593 3 400 (by norm_num) (by decide) (by decide)
  · intro q hq
    simp only [List.mem_cons, List.not_mem_nil, or_false] at hq
    rcases hq with rfl | rfl | rfl | rfl | rfl | rfl | rfl | rfl
    · exact powModF_ne_one 529709925838459440593 3 400 ((529709925838459440593 - 1) / 2) 529709925838459440592 (by norm_num)
        (by decide) (by decide) (by decide) (by decide)
    · exact powModF_ne_one 529709925838459440593 3 400 ((529709925838459440593 - 1) / 2) 529709925838459440592 (by norm_num)
        (by decide) (by decide) (by decide) (by decide)
    · exact powModF_ne_one 529709925838459440593 3 400 ((529709925838459440593 - 1) / 2) 529709925838459440592 (by norm_num)
        (by decide) (by decide) (by decide) (by decide)
    · exact powModF_ne_one 529709925838459440593 3 400 ((529709925838459440593 - 1) / 2) 529709925838459440592 (by norm_num)
        (by decide) (by decide) (by decide) (by decide)
    · exact powModF_ne_one 529709925838459440593 3 400 ((529709925838459440593 - 1) / 7) 263366080098323550853 (by norm_num)
        (by decide) (by decide) (by decide) (by decide)
    · exact powModF_ne_one 529709925838459440593 3 400 ((529709925838459440593 - 1) / 181) 381858462301752986206 (by norm_num)
        (by decide) (by decide) (by decide) (by decide)
    · exact powModF_ne_one 529709925838459440593 3 400 ((529709925838459440593 - 1) / 105957871) 127758719385794557795 (by norm_num)
        (by decide) (by decide) (by decide) (by decide)
    · exact powModF_ne_one 529709925838459440593 3 400 ((529709925838459440593 - 1) / 246608641) 255750427153657294804 (by norm_num)
        (by decide) (by decide) (by decide) (by decide)

/-- Lucas certificate: `35581458644053887931343` is prime (witness `5`). -/
theorem nat_prime_35581458644053887931343 : Nat.Prime 35581458644053887931343 := by
  apply lucas_cert 35581458644053887931343 5 [2, 17, 41, 568151, 44925942675193]
  · decide
  · intro q hq
    simp only [List.mem_cons, List.not_mem_nil, or_false] at hq
    rcases hq with rfl | rfl | rfl | rfl | rfl
    · exact nat_prime_2
    · exact nat_prime_17
    · exact nat_prime_41
    · exact nat_prime_568151
    · exact nat_prime_44925942675193
  · exact powModF_fermat 35581458644053887931343 5 400 (by norm_num) (by decide) (by decide)
  · intro q hq
    simp only [List.mem_cons, List.not_mem_nil, or_false] at hq
    rcases hq with rfl | rfl | rfl | rfl | rfl
    · exact powModF_ne_one 35581458644053887931343 5 400 ((35581458644053887931343 - 1) / 2) 35581458644053887931342 (by norm_num)
        (by decide) (by decide) (by decide) (by decide)
    · exact powModF_ne_one 35581458644053887931343 5 400 ((35581458644053887931343 - 1) / 17) 18136521990007084550118 (by norm_num)
        (by decide) (by decide) (by decide) (by decide)
    · exact powModF_ne_one 35581458644053887931343 5 400 ((35581458644053887931343 - 1) / 41) 15227593993214316078894 (by norm_num)
        (by decide) (by decide) (by decide) (by decide)
    · exact powModF_ne_one 35581458644053887931343 5 400 ((35581458644053887931343 - 1) / 568151) 34648949887555556755508 (by norm_num)
        (by decide) (by decide) (by decide) (by decide)
    · exact powModF_ne_one 35581458644053887931343 5 400 ((35581458644053887931343 - 1) / 44925942675193) 21632491223513882329054 (by norm_num)
        (by decide) (by decide) (by decide) (by decide)

/-- Lucas certificate: `23964610537191310276190549303` is prime (witness `5`). -/
theorem nat_prime_23964610537191310276190549303 : Nat.Prime 23964610537191310276190549303 := by
  apply lucas_cert 23964610537191310276190549303 5 [2, 336757, 35581458644053887931343]
  · decide
  · intro q hq
    simp only [List.mem_cons, List.not_mem_nil, or_false] at hq
    rcases hq with rfl | rfl | rfl
    · exact nat_prime_2
    · exact nat_prime_336757
    · exact nat_prime_35581458644053887931343
  · exact powModF_fermat 23964610537191310276190549303 5 400 (by norm_num) (by decide) (by decide)
  · intro q hq
    simp only [List.mem_cons, List.not_mem_nil, or_false] at hq
    rcases hq with rfl | rfl | rfl
    · exact powModF_ne_one 23964610537191310276190549303 5 400 ((23964610537191310276190549303 - 1) / 2) 23964610537191310276190549302 (by norm_num)
        (by decide) (by decide) (by decide) (by decide)
    · exact powModF_ne_one 23964610537191310276190549303 5 400 ((23964610537191310276190549303 - 1) / 336757) 12050751357463007756662914482 (by norm_num)
        (by decide) (by decide) (by decide) (by decide)
    · exact powModF_ne_one 23964610537191310276190549303 5 400 ((23964610537191310276190549303 - 1) / 35581458644053887931343) 14229035372025093959518563580 (by norm_num)
        (by decide) (by decide) (by decide) (by decide)

/-- Lucas certificate: `862725979338887169942859774909` is prime (witness `2`). -/
theorem nat_prime_862725979338887169942859774909 : Nat.Prime 862725979338887169942859774909 := by
  apply lucas_cert 862725979338887169942859774909 2 [2, 2, 3, 3, 23964610537191310276190549303]
  · decide
  · intro q hq
    simp only [List.mem_cons, List.not_mem_nil, or_false] at hq
    rcases hq with rfl | rfl | rfl | rfl | rfl
    · exact nat_prime_2
    · exact nat_prime_2
    · exact nat_prime_3
    · exact nat_prime_3
    · exact nat_prime_23964610537191310276190549303
  · exact powModF_fermat 862725979338887169942859774909 2 400 (by norm_num) (by decide) (by decide)
  · intro q hq
    simp only [List.mem_cons, List.not_mem_nil, or_false] at hq
    rcases hq with rfl | rfl | rfl | rfl | rfl
    · exact powModF_ne_one 862725979338887169942859774909 2 400 ((862725979338887169942859774909 - 1) / 2) 862725979338887169942859774908 (by norm_num)
        (by decide) (by decide) (by decide) (by decide)
    · exact powModF_ne_one 862725979338887169942859774909 2 400 ((862725979338887169942859774909 - 1) / 2) 862725979338887169942859774908 (by norm_num)
        (by decide) (by decide) (by decide) (by decide)
    · exact powModF_ne_one 862725979338887169942859774909 2 400 ((862725979338887169942859774909 - 1) / 3) 554547321885670060191810876869 (by norm_num)
        (by decide) (by decide) (by decide) (by decide)
    · exact powModF_ne_one 862725979338887169942859774909 2 400 ((862725979338887169942859774909 - 1) / 3) 554547321885670060191810876869 (by norm_num)
        (by decide) (by decide) (by decide) (by decide)
    · exact powModF_ne_one 862725979338887169942859774909 2 400 ((862725979338887169942859774909 - 1) / 23964610537191310276190549303) 68719476736 (by norm_num)
        (by decide) (by decide) (by decide) (by decide)

/-- Lucas certificate: `20705423504133292078628634597817` is prime (witness `5`). -/
theorem nat_prime_20705423504133292078628634597817 : Nat.Prime 20705423504133292078628634597817 := by
  apply lucas_cert 20705423504133292078628634597817 5 [2, 2, 2, 3, 862725979338887169942859774909]
  · decide
  · intro q hq
    simp only [List.mem_cons, List.not_mem_nil, or_false] at hq
    rcases hq with rfl | rfl | rfl | rfl | rfl
    · exact nat_prime_2
    · exact nat_prime_2
    · exact nat_prime_2
    · exact nat_prime_3
    · exact nat_prime_862725979338887169942859774909
  · exact powModF_fermat 20705423504133292078628634597817 5 400 (by norm_num) (by decide) (by decide)
  · intro q hq
    simp only [List.mem_cons, List.not_mem_nil, or_false] at hq
    rcases hq with rfl | rfl | rfl | rfl | rfl
    · exact powModF_ne_one 20705423504133292078628634597817 5 400 ((20705423504133292078628634597817 - 1) / 2) 20705423504133292078628634597816 (by norm_num)
        (by decide) (by decide) (by decide) (by decide)
    · exact powModF_ne_one 20705423504133292078628634597817 5 400 ((20705423504133292078628634597817 - 1) / 2) 20705423504133292078628634597816 (by norm_num)
        (by decide) (by decide) (by decide) (by decide)
    · exact powModF_ne_one 20705423504133292078628634597817 5 400 ((20705423504133292078628634597817 - 1) / 2) 20705423504133292078628634597816 (by norm_num)
        (by decide) (by decide) (by decide) (by decide)
    · exact powModF_ne_one 20705423504133292078628634597817 5 400 ((20705423504133292078628634597817 - 1) / 3) 1491154546354261220928318365080 (by norm_num)
        (by decide) (by decide) (by decide) (by decide)
    · exact powModF_ne_one 20705423504133292078628634597817 5 400 ((20705423504133292078628634597817 - 1) / 862725979338887169942859774909) 59604644775390625 (by norm_num)
        (by decide) (by decide) (by decide) (by decide)

/-- Lucas certificate: `413244619895455989650825325680172591660047` is prime (witness `5`). -/
theorem nat_prime_413244619895455989650825325680172591660047 : Nat.Prime 413244619895455989650825325680172591660047 := by
  apply lucas_cert 413244619895455989650825325680172591660047 5 [2, 17, 97, 6051631, 20705423504133292078628634597817]
  · decide
  · intro q hq
    simp only [List.mem_cons, List.not_mem_nil, or_false] at hq
    rcases hq with rfl | rfl | rfl | rfl | rfl
    · exact nat_prime_2
    · exact nat_prime_17
    · exact nat_prime_97
    · exact nat_prime_6051631
    · exact nat_prime_20705423504133292078628634597817
  · exact powModF_fermat 413244619895455989650825325680172591660047 5 400 (by norm_num) (by decide) (by decide)
  · intro q hq
    simp only [List.mem_cons, List.not_mem_nil, or_false] at hq
    rcases hq with rfl | rfl | rfl | rfl | rfl
    · exact powModF_ne_one 413244619895455989650825325680172591660047 5 400 ((413244619895455989650825325680172591660047 - 1) / 2) 413244619895455989650825325680172591660046 (by norm_num)
        (by decide) (by decide) (by decide) (by decide)
    · exact powModF_ne_one 413244619895455989650825325680172591660047 5 400 ((413244619895455989650825325680172591660047 - 1) / 17) 253674130454520691955973752753387663917396 (by norm_num)
        (by decide) (by decide) (by decide) (by decide)
    · exact powModF_ne_one 413244619895455989650825325680172591660047 5 400 ((413244619895455989650825325680172591660047 - 1) / 97) 289370713527083943164011317265346810620114 (by norm_num)
        (by decide) (by decide) (by decide) (by decide)
    · exact powModF_ne_one 413244619895455989650825325680172591660047 5 400 ((413244619895455989650825325680172591660047 - 1) / 6051631) 140752921442502867886543877260825423078203 (by norm_num)
        (by decide) (by decide) (by decide) (by decide)
    · exact powModF_ne_one 413244619895455989650825325680172591660047 5 400 ((413244619895455989650825325680172591660047 - 1) / 20705423504133292078628634597817) 9291050914341109550066337361890780996751 (by norm_num)
        (by decide) (by decide) (by decide) (by decide)

/-- Lucas certificate: `12397338596863679689524759770405177749801411` is prime (witness `2`). -/
theorem nat_prime_12397338596863679689524759770405177749801411 : Nat.Prime 12397338596863679689524759770405177749801411 := by
  apply lucas_cert 12397338596863679689524759770405177749801411 2 [2, 3, 5, 413244619895455989650825325680172591660047]
  · decide
  · intro q hq
    simp only [List.mem_cons, List.not_mem_nil, or_false] at hq
    rcases hq with rfl | rfl | rfl | rfl
    · exact nat_prime_2
    · exact nat_prime_3
    · exact nat_prime_5
    · exact nat_prime_413244619895455989650825325680172591660047
  · exact powModF_fermat 12397338596863679689524759770405177749801411 2 400 (by norm_num) (by decide) (by decide)
  · intro q hq
    simp only [List.mem_cons, List.not_mem_nil, or_false] at hq
    rcases hq with rfl | rfl | rfl | rfl
    · exact powModF_ne_one 12397338596863679689524759770405177749801411 2 400 ((12397338596863679689524759770405177749801411 - 1) / 2) 12397338596863679689524759770405177749801410 (by norm_num)
        (by decide) (by decide) (by decide) (by decide)
    · exact powModF_ne_one 12397338596863679689524759770405177749801411 2 400 ((12397338596863679689524759770405177749801411 - 1) / 3) 8104514121264568261529961501780051580495388 (by norm_num)
        (by decide) (by decide) (by decide) (by decide)
    · exact powModF_ne_one 12397338596863679689524759770405177749801411 2 400 ((12397338596863679689524759770405177749801411 - 1) / 5) 851852727801484386186303901873778306678953 (by norm_num)
        (by decide) (by decide) (by decide) (by decide)
    · exact powModF_ne_one 12397338596863679689524759770405177749801411 2 400 ((12397338596863679689524759770405177749801411 - 1) / 413244619895455989650825325680172591660047) 1073741824 (by norm_num)
        (by decide) (by decide) (by decide) (by decide)

/-- Lucas certificate: `19173790298027098165721053155794528970226934547887232785722672956982046098136719667167519737147526097` is prime (witness `3`). -/
theorem nat_prime_19173790298027098165721053155794528970226934547887232785722672956982046098136719667167519737147526097 : Nat.Prime 19173790298027098165721053155794528970226934547887232785722672956982046098136719667167519737147526097 := by
  apply lucas_cert 19173790298027098165721053155794528970226934547887232785722672956982046098136719667167519737147526097 3 [2, 2, 2, 2, 11, 11, 11, 8389, 38557, 312289, 1357291859799823621, 529709925838459440593, 12397338596863679689524759770405177749801411]
  · decide
  · intro q hq
    simp only [List.mem_cons, List.not_mem_nil, or_false] at hq
    rcases hq with rfl | rfl | rfl | rfl | rfl | rfl | rfl | rfl | rfl | rfl | rfl | rfl | rfl
    · exact nat_prime_2
    · exact nat_prime_2
    · exact nat_prime_2
    · exact nat_prime_2
    · exact nat_prime_11
    · exact nat_prime_11
    · exact nat_prime_11
    · exact nat_prime_8389
    · exact nat_prime_38557
    · exact nat_prime_312289
    · exact nat_prime_1357291859799823621
    · exact nat_prime_529709925838459440593
    · exact nat_prime_12397338596863679689524759770405177749801411
  · exact powModF_fermat 19173790298027098165721053155794528970226934547887232785722672956982046098136719667167519737147526097 3 400 (by norm_num) (by decide) (by decide)
  · intro q hq
    simp only [List.mem_cons, List.not_mem_nil, or_false] at hq
    rcases hq with rfl | rfl | rfl | rfl | rfl | rfl | rfl | rfl | rfl | rfl | rfl | rfl | rfl
    · exact powModF_ne_one 19173790298027098165721053155794528970226934547887232785722672956982046098136719667167519737147526097 3 400 ((19173790298027098165721053155794528970226934547887232785722672956982046098136719667167519737147526097 - 1) / 2) 19173790298027098165721053155794528970226934547887232785722672956982046098136719667167519737147526096 (by norm_num)
        (by decide) (by decide) (by decide) (by decide)
    · exact powModF_ne_one 19173790298027098165721053155794528970226934547887232785722672956982046098136719667167519737147526097 3 400 ((19173790298027098165721053155794528970226934547887232785722672956982046098136719667167519737147526097 - 1) / 2) 19173790298027098165721053155794528970226934547887232785722672956982046098136719667167519737147526096 (by norm_num)
        (by decide) (by decide) (by decide) (by decide)
    · exact powModF_ne_one 19173790298027098165721053155794528970226934547887232785722672956982046098136719667167519737147526097 3 400 ((19173790298027098165721053155794528970226934547887232785722672956982046098136719667167519737147526097 - 1) / 2) 19173790298027098165721053155794528970226934547887232785722672956982046098136719667167519737147526096 (by norm_num)
        (by decide) (by decide) (by decide) (by decide)
    · exact powModF_ne_one 19173790298027098165721053155794528970226934547887232785722672956982046098136719667167519737147526097 3 400 ((19173790298027098165721053155794528970226934547887232785722672956982046098136719667167519737147526097 - 1) / 2) 19173790298027098165721053155794528970226934547887232785722672956982046098136719667167519737147526096 (by norm_num)
        (by decide) (by decide) (by decide) (by decide)
    · exact powModF_ne_one 19173790298027098165721053155794528970226934547887232785722672956982046098136719667167519737147526097 3 400 ((19173790298027098165721053155794528970226934547887232785722672956982046098136719667167519737147526097 - 1) / 11) 2184233419562577176343347393451267392861739578037292376786906895595598341768285222146821228053335753 (by norm_num)
        (by decide) (by decide) (by decide) (by decide)
    · exact powModF_ne_one 19173790298027098165721053155794528970226934547887232785722672956982046098136719667167519737147526097 3 400 ((19173790298027098165721053155794528970226934547887232785722672956982046098136719667167519737147526097 - 1) / 11) 2184233419562577176343347393451267392861739578037292376786906895595598341768285222146821228053335753 (by norm_num)
        (by decide) (by decide) (by decide) (by decide)
    · exact powModF_ne_one 19173790298027098165721053155794528970226934547887232785722672956982046098136719667167519737147526097 3 400 ((19173790298027098165721053155794528970226934547887232785722672956982046098136719667167519737147526097 - 1) / 11) 2184233419562577176343347393451267392861739578037292376786906895595598341768285222146821228053335753 (by norm_num)
        (by decide) (by decide) (by decide) (by decide)
    · exact powModF_ne_one 19173790298027098165721053155794528970226934547887232785722672956982046098136719667167519737147526097 3 400 ((19173790298027098165721053155794528970226934547887232785722672956982046098136719667167519737147526097 - 1) / 8389) 15376609956453523880814057377609163302348259178089347269996272312368116823683087703138098265664542719 (by norm_num)
        (by decide) (by decide) (by decide) (by decide)
    · exact powModF_ne_one 19173790298027098165721053155794528970226934547887232785722672956982046098136719667167519737147526097 3 400 ((19173790298027098165721053155794528970226934547887232785722672956982046098136719667167519737147526097 - 1) / 38557) 10940189377084025517428679600733535606280375539185388596740132565967277669719434767087143835586755914 (by norm_num)
        (by decide) (by decide) (by decide) (by decide)
    · exact powModF_ne_one 19173790298027098165721053155794528970226934547887232785722672956982046098136719667167519737147526097 3 400 ((19173790298027098165721053155794528970226934547887232785722672956982046098136719667167519737147526097 - 1) / 312289) 3309509461264288459534707796526182305623841317632144298704037437074098104545617284135665374827437570 (by norm_num)
        (by decide) (by decide) (by decide) (by decide)
    · exact powModF_ne_one 19173790298027098165721053155794528970226934547887232785722672956982046098136719667167519737147526097 3 400 ((19173790298027098165721053155794528970226934547887232785722672956982046098136719667167519737147526097 - 1) / 1357291859799823621) 17041293920355882582872296312104536408076877541969209622960250371166231578233452839219382418402936112 (by norm_num)
        (by decide) (by decide) (by decide) (by decide)
    · exact powModF_ne_one 19173790298027098165721053155794528970226934547887232785722672956982046098136719667167519737147526097 3 400 ((19173790298027098165721053155794528970226934547887232785722672956982046098136719667167519737147526097 - 1) / 529709925838459440593) 12792614396432957722098161153263426370634245438394570577061605482832990523119406776007833403367571505 (by norm_num)
        (by decide) (by decide) (by decide) (by decide)
    · exact powModF_ne_one 19173790298027098165721053155794528970226934547887232785722672956982046098136719667167519737147526097 3 400 ((19173790298027098165721053155794528970226934547887232785722672956982046098136719667167519737147526097 - 1) / 12397338596863679689524759770405177749801411) 76817502960875821069666487500243470043398778356219532578945765468811824994000259682584076151867216 (by norm_num)
        (by decide) (by decide) (by decide) (by decide)

/-- Lucas certificate: `39402006196394479212279040100143613805079739270465446667948293404245721771496870329047266088258938001861606973112319` is prime (witness `19`). -/
theorem p384_prime_numeral : Nat.Prime 39402006196394479212279040100143613805079739270465446667948293404245721771496870329047266088258938001861606973112319 := by
  apply lucas_cert 39402006196394479212279040100143613805079739270465446667948293404245721771496870329047266088258938001861606973112319 19 [2, 19, 67, 807145746439, 19173790298027098165721053155794528970226934547887232785722672956982046098136719667167519737147526097]
  · decide
  · intro q hq
    simp only [List.mem_cons, List.not_mem_nil, or_false] at hq
    rcases hq with rfl | rfl | rfl | rfl | rfl
    · exact nat_prime_2
    · exact nat_prime_19
    · exact nat_prime_67
    · exact nat_prime_807145746439
    · exact nat_prime_19173790298027098165721053155794528970226934547887232785722672956982046098136719667167519737147526097
  · exact powModF_fermat 39402006196394479212279040100143613805079739270465446667948293404245721771496870329047266088258938001861606973112319 19 400 (by norm_num) (by decide) (by decide)
  · intro q hq
    simp only [List.mem_cons, List.not_mem_nil, or_false] at hq
    rcases hq with rfl | rfl | rfl | rfl | rfl
    · exact powModF_ne_one 39402006196394479212279040100143613805079739270465446667948293404245721771496870329047266088258938001861606973112319 19 400 ((39402006196394479212279040100143613805079739270465446667948293404245721771496870329047266088258938001861606973112319 - 1) / 2) 39402006196394479212279040100143613805079739270465446667948293404245721771496870329047266088258938001861606973112318 (by norm_num)
        (by decide) (by decide) (by decide) (by decide)
    · exact powModF_ne_one 39402006196394479212279040100143613805079739270465446667948293404245721771496870329047266088258938001861606973112319 19 400 ((39402006196394479212279040100143613805079739270465446667948293404245721771496870329047266088258938001861606973112319 - 1) / 19) 26648771580007588439682415898518556392256616822351223664555544265137815233523167827522711267292224353538398569702088 (by norm_num)
        (by decide) (by decide) (by decide) (by decide)
    · exact powModF_ne_one 39402006196394479212279040100143613805079739270465446667948293404245721771496870329047266088258938001861606973112319 19 400 ((39402006196394479212279040100143613805079739270465446667948293404245721771496870329047266088258938001861606973112319 - 1) / 67) 20304381569967105798940877056547420185544827129490388648207095438196725410711229496893137386292424423334147766916995 (by norm_num)
        (by decide) (by decide) (by decide) (by decide)
    · exact powModF_ne_one 39402006196394479212279040100143613805079739270465446667948293404245721771496870329047266088258938001861606973112319 19 400 ((39402006196394479212279040100143613805079739270465446667948293404245721771496870329047266088258938001861606973112319 - 1) / 807145746439) 27600840717316025460608283232316320553695597803059417097907975036556985979487817631602162820027683913571205670902000 (by norm_num)
        (by decide) (by decide) (by decide) (by decide)
    · exact powModF_ne_one 39402006196394479212279040100143613805079739270465446667948293404245721771496870329047266088258938001861606973112319 19 400 ((39402006196394479212279040100143613805079739270465446667948293404245721771496870329047266088258938001861606973112319 - 1) / 19173790298027098165721053155794528970226934547887232785722672956982046098136719667167519737147526097) 26374872363893994295701826582545123409527178403824281506706445511409066290686643608330629590824300345710806734235109 (by norm_num)
        (by decide) (by decide) (by decide) (by decide)

/-- The P-384 modulus is prime. -/
theorem p384_prime : Nat.Prime p384 := by
  have h : p384 = 39402006196394479212279040100143613805079739270465446667948293404245721771496870329047266088258938001861606973112319 := by decide
  rw [h]
  exact p384_prime_numeral

instance fact_p384_prime : Fact (Nat.Prime p384) := ⟨p384_prime⟩

/-! ### C6: affine coordinates and the Fermat inversion chain -/

/-- Iterated squaring: the `for` loops of `fiat_p384_inv_square`
(p384.c:100-173) square a running value `n` times. -/
def fiat_p384_nsquare (x : Felem) : ℕ → Felem
  | 0 => x
  | n + 1 => fiat_p384_square (fiat_p384_nsquare x n)

/-- `fiat_p384_inv_square` (p384.c:85-175): `out = in⁻²` by the addition
chain for the exponent `p − 3`, transcribed block by block (the square
counts are the loop counts of the C code: 3, 6, 3, 15, 30, 60, 120, 15,
1+30, 2, 64+30, and 2 final squarings). -/
def fiat_p384_inv_square (a : Felem) : Felem :=
  let x2 := fiat_p384_mul (fiat_p384_square a) a
  let x3 := fiat_p384_mul (fiat_p384_square x2) a
  let x6 := fiat_p384_mul (fiat_p384_nsquare x3 3) x3
  let x12 := fiat_p384_mul (fiat_p384_nsquare x6 6) x6
  let x15 := fiat_p384_mul (fiat_p384_nsquare x12 3) x3
  let x30 := fiat_p384_mul (fiat_p384_nsquare x15 15) x15
  let x60 := fiat_p384_mul (fiat_p384_nsquare x30 30) x30
  let x120 := fiat_p384_mul (fiat_p384_nsquare x60 60) x60
  let ret := fiat_p384_mul (fiat_p384_nsquare x120 120) x120
  let ret := fiat_p384_mul (fiat_p384_nsquare ret 15) x15
  let ret := fiat_p384_mul (fiat_p384_nsquare ret 31) x30
  let ret := fiat_p384_mul (fiat_p384_nsquare ret 2) x2
  let ret := fiat_p384_mul (fiat_p384_nsquare ret 94) x30
  fiat_p384_nsquare ret 2

/-- `n` squarings raise to the power `2^n`. -/
theorem fiat_p384_nsquare_eq (x : Felem) :
    ∀ n : ℕ, fiat_p384_nsquare x n = x ^ (2 ^ n) := by
  intro n
  induction n with
  | zero => simp [fiat_p384_nsquare]
  | succ n ih =>
    show fiat_p384_square (fiat_p384_nsquare x n) = _
    rw [ih, fiat_p384_square, ← pow_add]
    have e : 2 ^ n + 2 ^ n = 2 ^ (n + 1) := by
      rw [pow_succ]
      omega
    rw [e]

/-- The addition chain computes exactly the exponent `p − 3`. -/
theorem fiat_p384_inv_square_eq_pow (a : Felem) :
    fiat_p384_inv_square a = a ^ (p384 - 3) := by
  have hstep : ∀ (e k f : ℕ),
      fiat_p384_mul (fiat_p384_nsquare (a ^ e) k) (a ^ f) =
        a ^ (e * 2 ^ k + f) := by
    intro e k f
    rw [fiat_p384_nsquare_eq, fiat_p384_mul, ← pow_mul, ← pow_add]
  have h2 : fiat_p384_mul (fiat_p384_square a) a = a ^ 3 := by
    simp only [fiat_p384_square, fiat_p384_mul]
    ring
  have h3 : fiat_p384_mul (fiat_p384_square (a ^ 3)) a = a ^ 7 := by
    simp only [fiat_p384_square, fiat_p384_mul]
    ring
  simp only [fiat_p384_inv_square]
  rw [h2, h3]
  rw [show fiat_p384_mul (fiat_p384_nsquare (a ^ 7) 3) (a ^ 7) = a ^ 63 from by
    rw [hstep]; norm_num]
  rw [show fiat_p384_mul (fiat_p384_nsquare (a ^ 63) 6) (a ^ 63) = a ^ 4095 from by
    rw [hstep]; norm_num]
  rw [show fiat_p384_mul (fiat_p384_nsquare (a ^ 4095) 3) (a ^ 7) = a ^ 32767 from by
    rw [hstep]; norm_num]
  rw [show fiat_p384_mul (fiat_p384_nsquare (a ^ 32767) 15) (a ^ 32767) =
      a ^ 1073741823 from by rw [hstep]; norm_num]
  rw [show fiat_p384_mul (fiat_p384_nsquare (a ^ 1073741823) 30) (a ^ 1073741823) =
      a ^ 1152921504606846975 from by rw [hstep]; norm_num]
  rw [show fiat_p384_mul (fiat_p384_nsquare (a ^ 1152921504606846975) 60)
      (a ^ 1152921504606846975) = a ^ 1329227995784915872903807060280344575 from by
    rw [hstep]; norm_num]
  rw [show fiat_p384_mul
      (fiat_p384_nsquare (a ^ 1329227995784915872903807060280344575) 120)
      (a ^ 1329227995784915872903807060280344575) =
      a ^ 1766847064778384329583297500742918515827483896875618958121606201292619775
      from by rw [hstep]; norm_num]
  rw [show fiat_p384_mul
      (fiat_p384_nsquare
        (a ^ 1766847064778384329583297500742918515827483896875618958121606201292619775) 15)
      (a ^ 32767) =
      a ^ 57896044618658097711785492504343953926634992332820282019728792003956564819967
      from by rw [hstep]; norm_num]
  rw [show fiat_p384_mul
      (fiat_p384_nsquare
        (a ^ 57896044618658097711785492504343953926634992332820282019728792003956564819967) 31)
      (a ^ 1073741823) =
      a ^ 124330809102446660538845562036705210025114037699336929360115994223289874253132270141439
      from by rw [hstep]; norm_num]
  rw [show fiat_p384_mul
      (fiat_p384_nsquare
        (a ^ 124330809102446660538845562036705210025114037699336929360115994223289874253132270141439) 2)
      (a ^ 3) =
      a ^ 497323236409786642155382248146820840100456150797347717440463976893159497012529080565759
      from by rw [hstep]; norm_num]
  rw [show fiat_p384_mul
      (fiat_p384_nsquare
        (a ^ 497323236409786642155382248146820840100456150797347717440463976893159497012529080565759) 94)
      (a ^ 1073741823) =
      a ^ 9850501549098619803069760025035903451269934817616361666987073351061430442874217582261816522064734500465401743278079
      from by rw [hstep]; norm_num]
  rw [fiat_p384_nsquare_eq, ← pow_mul]
  congr 1

/-- `ec_GFp_nistp384_point_get_affine_coordinates` (p384.c:368-397).
The initial infinity test calls the generic `ec_GFp_simple_is_at_infinity`
(not part of the studied sources); modelled from the spec: the point at
infinity is any triple with `Z = 0` (spec §3), and the failure
(`EC_R_POINT_AT_INFINITY`, return 0) is modelled by `none`.  The byte
conversions `fiat_p384_from_generic` / `fiat_p384_to_generic` are value
preserving and are omitted in the field model. -/
def ec_GFp_nistp384_point_get_affine_coordinates (X Y Z : Felem) :
    Option (Felem × Felem) :=
  if Z = 0 then none
  else
    let z1 := Z
    let z2 := fiat_p384_inv_square z1
    let x := fiat_p384_mul X z2
    let z2sq := fiat_p384_square z2
    let y := fiat_p384_mul (fiat_p384_mul Y z1) z2sq
    some (x, y)

/-- The inversion chain really inverts: for `Z ≠ 0`,
`fiat_p384_inv_square Z = (Z²)⁻¹`. -/
theorem fiat_p384_inv_square_eq_inv (Z : Felem) (hZ : Z ≠ 0) :
    fiat_p384_inv_square Z = (Z ^ 2)⁻¹ := by
  rw [fiat_p384_inv_square_eq_pow]
  have hcancel : Z ^ (p384 - 3) * Z ^ 2 = 1 := by
    rw [← pow_add]
    have h3 : 3 ≤ p384 := by decide
    have e : p384 - 3 + 2 = p384 - 1 := by omega
    rw [e]
    exact ZMod.pow_card_sub_one_eq_one hZ
  exact eq_inv_of_mul_eq_one_left hcancel

/-- **C6**: `ec_GFp_nistp384_point_get_affine_coordinates` fails
(signalling `POINT_AT_INFINITY`) iff the input has `Z = 0`; for every
point with `Z ≠ 0` it succeeds and returns the affine coordinates
`x = X/Z²` and `y = Y/Z³` (computed via `X·Z⁻²` and `Y·Z·(Z⁻²)²`). -/
theorem ec_GFp_nistp384_point_get_affine_coordinates_spec
    (X Y Z : Felem) :
    (ec_GFp_nistp384_point_get_affine_coordinates X Y Z = none ↔ Z = 0) ∧
    (Z ≠ 0 →
      ec_GFp_nistp384_point_get_affine_coordinates X Y Z =
        some (X / Z ^ 2, Y / Z ^ 3)) := by
  constructor
  · unfold ec_GFp_nistp384_point_get_affine_coordinates
    split_ifs with h
    · simp [h]
    · simp [h]
  · intro hZ
    unfold ec_GFp_nistp384_point_get_affine_coordinates
    rw [if_neg hZ]
    simp only [fiat_p384_mul, fiat_p384_square,
      fiat_p384_inv_square_eq_inv Z hZ]
    have hx : X * (Z ^ 2)⁻¹ = X / Z ^ 2 := (div_eq_mul_inv X (Z ^ 2)).symm
    have hy : Y * Z * ((Z ^ 2)⁻¹ * (Z ^ 2)⁻¹) = Y / Z ^ 3 := by
      rw [eq_div_iff (pow_ne_zero 3 hZ)]
      field_simp
      ring
    rw [hx, hy]

/-- Witness for C6: the identity `(1,1,0)` is rejected; the affine point
`(2,3,1)` is returned unchanged. -/
theorem ec_GFp_nistp384_point_get_affine_coordinates_spec_witness :
    (ec_GFp_nistp384_point_get_affine_coordinates 1 1 0 = none ↔
      (0 : Felem) = 0) ∧
    ec_GFp_nistp384_point_get_affine_coordinates 2 3 1 =
      some (2 / 1 ^ 2, 3 / 1 ^ 3) :=
  ⟨(ec_GFp_nistp384_point_get_affine_coordinates_spec 1 1 0).1,
   (ec_GFp_nistp384_point_get_affine_coordinates_spec 2 3 1).2 (by decide)⟩

/-! ### C7: x-coordinate comparison for ECDSA verification -/

/-- Modelled from the spec: the group order `n` of P-384 (spec §6
"Constants"; the code reads it from `group->order`, set up by the generic
`EC_GROUP` plumbing outside the studied sources). -/
def n384 : ℕ :=
  39402006196394479212279040100143613805079739270465446667946905279627659399113263569398956308152294913554433653942643

/-- `ec_GFp_nistp384_cmp_x_coordinate` (p384.c:459-504):
compare the affine x-coordinate of `(X, ·, Z)` with the scalar `r`
(given as 48 little-endian bytes; modelled by its value).  The infinity
test and `bn_less_than_words r field_minus_order` / `bn_add_words`
(generic big-number helpers outside the studied sources) are modelled
from the spec: `Z = 0` test, the comparison `r < p − n` and the sum
`r + n`.  The Montgomery conversions cancel: the code compares
`r·Z²` with `X` as field elements (canonical representations). -/
def ec_GFp_nistp384_cmp_x_coordinate (X Z : Felem) (r : ℕ) : Bool :=
  if Z = 0 then false
  else
    let Z2_mont := fiat_p384_mul Z Z
    let r_Z2 := fiat_p384_mul ((r : ℕ) : Felem) Z2_mont
    if r_Z2 = X then true
    else if r < p384 - n384 then
      if fiat_p384_mul (((r + n384 : ℕ) : Felem)) Z2_mont = X then true
      else false
    else false

/-- Comparing `c·Z²` with `X` is comparing `X/Z²` with `c`. -/
theorem cmp_x_key (X Z : Felem) (hZ : Z ≠ 0) (c : Felem) :
    fiat_p384_mul c (fiat_p384_mul Z Z) = X ↔ X / Z ^ 2 = c := by
  have hZ2 : Z ^ 2 ≠ 0 := pow_ne_zero 2 hZ
  simp only [fiat_p384_mul]
  constructor
  · intro h
    rw [div_eq_iff hZ2, ← h]
    ring
  · intro h
    rw [div_eq_iff hZ2] at h
    rw [h]
    ring

/-- **C7**: for every point with `Z ≠ 0` and scalar `r < n`,
`ec_GFp_nistp384_cmp_x_coordinate` returns 1 iff the affine x-coordinate
`X/Z²` equals `r`, or — only when `r < p − n` — equals `r + n (mod p)`;
for the point at infinity it returns 0. -/
theorem ec_GFp_nistp384_cmp_x_coordinate_spec (X Z : Felem) (r : ℕ)
    (hr : r < n384) :
    (Z = 0 → ec_GFp_nistp384_cmp_x_coordinate X Z r = false) ∧
    (Z ≠ 0 →
      (ec_GFp_nistp384_cmp_x_coordinate X Z r = true ↔
        X / Z ^ 2 = (r : Felem) ∨
          (r < p384 - n384 ∧ X / Z ^ 2 = ((r + n384 : ℕ) : Felem)))) := by
  constructor
  · intro h
    unfold ec_GFp_nistp384_cmp_x_coordinate
    rw [if_pos h]
  · intro hZ
    unfold ec_GFp_nistp384_cmp_x_coordinate
    rw [if_neg hZ]
    by_cases h1 : fiat_p384_mul ((r : ℕ) : Felem) (fiat_p384_mul Z Z) = X
    · rw [if_pos h1]
      simp only [true_iff]
      exact Or.inl ((cmp_x_key X Z hZ _).mp h1)
    · rw [if_neg h1]
      by_cases h2 : r < p384 - n384
      · rw [if_pos h2]
        by_cases h3 :
            fiat_p384_mul (((r + n384 : ℕ) : Felem)) (fiat_p384_mul Z Z) = X
        · rw [if_pos h3]
          simp only [true_iff]
          exact Or.inr ⟨h2, (cmp_x_key X Z hZ _).mp h3⟩
        · rw [if_neg h3]
          simp only [Bool.false_eq_true, false_iff]
          push_neg
          constructor
          · intro hcontra
            exact h1 ((cmp_x_key X Z hZ _).mpr hcontra)
          · intro _ hcontra
            exact h3 ((cmp_x_key X Z hZ _).mpr hcontra)
      · rw [if_neg h2]
        simp only [Bool.false_eq_true, false_iff]
        push_neg
        constructor
        · intro hcontra
          exact h1 ((cmp_x_key X Z hZ _).mpr hcontra)
        · intro hcontra
          exact absurd hcontra h2

/-- Witness for C7: at `X = 5`, `Z = 1`, `r = 5` the comparison is
characterised; at `Z = 0` it returns 0. -/
theorem ec_GFp_nistp384_cmp_x_coordinate_spec_witness :
    ec_GFp_nistp384_cmp_x_coordinate 7 0 5 = false ∧
    (ec_GFp_nistp384_cmp_x_coordinate 5 1 5 = true ↔
      (5 : Felem) / (1 : Felem) ^ 2 = ((5 : ℕ) : Felem) ∨
        (5 < p384 - n384 ∧
          (5 : Felem) / (1 : Felem) ^ 2 = ((5 + n384 : ℕ) : Felem))) :=
  ⟨(ec_GFp_nistp384_cmp_x_coordinate_spec 7 0 5 (by decide)).1 rfl,
   (ec_GFp_nistp384_cmp_x_coordinate_spec 5 1 5 (by decide)).2 (by decide)⟩

/-! ### C1: scalar multiplication -/

/-- Modelled from the spec: the coefficient `b` of the P-384 curve
`y² = x³ − 3x + b` (spec §1). -/
def b384 : Felem :=
  27580193559959705877849011840389048093056905856361568521428707301988689241309860865136260764883745107765439761230575

/-- Modelled from the spec: the P-384 curve as a Weierstrass curve in
affine coordinates (spec §1): `a₁ = a₂ = a₃ = 0`, `a₄ = −3`, `a₆ = b`. -/
def W384 : WeierstrassCurve.Affine Felem :=
  { a₁ := 0, a₂ := 0, a₃ := 0, a₄ := -3, a₆ := b384 }

/-- A Jacobian triple `(x, y, z)` represents the nonsingular curve point
`Q`: either `z = 0` and `Q` is the point at infinity, or `z ≠ 0` and `Q`
is the affine point `(x/z², y/z³)`. -/
def JacRep (x y z : Felem) (Q : W384.Point) : Prop :=
  (z = 0 ∧ Q = 0) ∨
  (z ≠ 0 ∧ ∃ h : W384.Nonsingular (x / z ^ 2) (y / z ^ 3),
    Q = WeierstrassCurve.Affine.Point.some h)

/-- Transport a nonsingular point across coordinate equalities. -/
theorem exists_some_of_eq {A B C D : Felem} (hA : A = C) (hB : B = D)
    (h : W384.Nonsingular A B) :
    ∃ h2 : W384.Nonsingular C D,
      WeierstrassCurve.Affine.Point.some h =
        WeierstrassCurve.Affine.Point.some h2 := by
  subst hA
  subst hB
  exact ⟨h, rfl⟩

/-- Two `some` points with equal coordinates are equal. -/
theorem point_some_congr {A B C D : Felem} (hA : A = C) (hB : B = D)
    (h1 : W384.Nonsingular A B) (h2 : W384.Nonsingular C D) :
    WeierstrassCurve.Affine.Point.some h1 =
      WeierstrassCurve.Affine.Point.some h2 := by
  subst hA
  subst hB
  rfl

/-- In `ZMod p384`, the numerals 2, 4 and 8 are invertible. -/
theorem felem_two_ne : (2 : Felem) ≠ 0 := by decide

theorem felem_four_ne : (4 : Felem) ≠ 0 := by decide

theorem felem_eight_ne : (8 : Felem) ≠ 0 := by decide

/-- Negating the `y` coordinate represents the negated point. -/
theorem JacRep_neg {x y z : Felem} {Q : W384.Point} (h : JacRep x y z Q) :
    JacRep x (fiat_p384_opp y) z (-Q) := by
  rcases h with ⟨hz, hQ⟩ | ⟨hz, hns, hQ⟩
  · exact Or.inl ⟨hz, by rw [hQ, neg_zero]⟩
  · refine Or.inr ⟨hz, ?_⟩
    rw [hQ, WeierstrassCurve.Affine.Point.neg_some]
    exact exists_some_of_eq rfl
      (by simp only [WeierstrassCurve.Affine.negY, W384, fiat_p384_opp]; ring)
      (WeierstrassCurve.Affine.nonsingular_neg hns)

/-- On a curve with `a₁ = a₃ = 0` over a field of characteristic `≠ 2`,
a point with nonzero `y` is not its own negative. -/
theorem hyn_of (xa ya : Felem) (hy : ya ≠ 0) :
    ya ≠ W384.negY xa ya := by
  simp only [WeierstrassCurve.Affine.negY, W384]
  intro hcon
  have h2y : (2 : Felem) * ya = 0 := by linear_combination hcon
  exact hy ((mul_eq_zero.mp h2y).resolve_left felem_two_ne)

/-- The tangent slope on `W384` in explicit form. -/
theorem slope_dbl (xa ya : Felem) (hy : ya ≠ 0) :
    W384.slope xa xa ya ya = (3 * xa ^ 2 - 3) / (2 * ya) := by
  have hyn := hyn_of xa ya hy
  rw [WeierstrassCurve.Affine.slope_of_Y_ne rfl hyn]
  have hd1 : ya - W384.negY xa ya ≠ 0 := sub_ne_zero.mpr hyn
  rw [div_eq_div_iff hd1 (mul_ne_zero felem_two_ne hy)]
  simp only [WeierstrassCurve.Affine.negY, W384]
  ring

/-- The doubled `x` coordinate on `W384` as a single fraction. -/
theorem addX_dbl (xa ya : Felem) (hy : ya ≠ 0) :
    W384.addX xa xa (W384.slope xa xa ya ya) =
      ((3 * xa ^ 2 - 3) ^ 2 - 8 * xa * ya ^ 2) / (4 * ya ^ 2) := by
  rw [slope_dbl xa ya hy]
  simp only [WeierstrassCurve.Affine.addX, W384, zero_mul, mul_zero, add_zero,
    sub_zero]
  have h2 := felem_two_ne
  have h4 := felem_four_ne
  field_simp
  ring

/-- The doubled `y` coordinate on `W384` as a single fraction. -/
theorem addY_dbl (xa ya : Felem) (hy : ya ≠ 0) :
    W384.addY xa xa ya (W384.slope xa xa ya ya) =
      ((3 * xa ^ 2 - 3) *
          (4 * xa * ya ^ 2 - ((3 * xa ^ 2 - 3) ^ 2 - 8 * xa * ya ^ 2)) -
        8 * ya ^ 4) / (8 * ya ^ 3) := by
  rw [WeierstrassCurve.Affine.addY, WeierstrassCurve.Affine.negAddY,
    addX_dbl xa ya hy, slope_dbl xa ya hy]
  simp only [WeierstrassCurve.Affine.negY, W384, zero_mul, mul_zero, add_zero,
    sub_zero]
  have h2 := felem_two_ne
  have h4 := felem_four_ne
  have h8 := felem_eight_ne
  field_simp
  ring

/-- The chord slope on `W384` for distinct `x` coordinates. -/
theorem slope_add_ne (x1 x2 y1 y2 : Felem) (hx : x1 ≠ x2) :
    W384.slope x1 x2 y1 y2 = (y1 - y2) / (x1 - x2) :=
  WeierstrassCurve.Affine.slope_of_X_ne hx

/-- The chord-added `x` coordinate on `W384` as a single fraction. -/
theorem addX_chord (x1 x2 y1 y2 : Felem) (hx : x1 ≠ x2) :
    W384.addX x1 x2 (W384.slope x1 x2 y1 y2) =
      ((y1 - y2) ^ 2 - (x1 + x2) * (x1 - x2) ^ 2) / (x1 - x2) ^ 2 := by
  rw [slope_add_ne x1 x2 y1 y2 hx]
  have hd : x1 - x2 ≠ 0 := sub_ne_zero.mpr hx
  simp only [WeierstrassCurve.Affine.addX, W384, zero_mul, mul_zero, add_zero,
    sub_zero]
  field_simp
  ring

/-- The chord-added `y` coordinate on `W384` as a single fraction. -/
theorem addY_chord (x1 x2 y1 y2 : Felem) (hx : x1 ≠ x2) :
    W384.addY x1 x2 y1 (W384.slope x1 x2 y1 y2) =
      ((y1 - y2) * (x1 * (x1 - x2) ^ 2 -
          ((y1 - y2) ^ 2 - (x1 + x2) * (x1 - x2) ^ 2)) -
        y1 * (x1 - x2) ^ 3) / (x1 - x2) ^ 3 := by
  rw [WeierstrassCurve.Affine.addY, WeierstrassCurve.Affine.negAddY,
    addX_chord x1 x2 y1 y2 hx, slope_add_ne x1 x2 y1 y2 hx]
  have hd : x1 - x2 ≠ 0 := sub_ne_zero.mpr hx
  simp only [WeierstrassCurve.Affine.negY, W384, zero_mul, mul_zero, add_zero,
    sub_zero]
  field_simp
  ring

/-- The Jacobian doubling output `x`, divided by `z_out²`, is the affine
doubled `x` coordinate. -/
theorem jac_dbl_x (xa ya z : Felem) (hz : z ≠ 0) (hy : ya ≠ 0) :
    z ^ 8 * (9 * (xa ^ 2 - 1) ^ 2 - 8 * xa * ya ^ 2) / (2 * ya * z ^ 4) ^ 2 =
      W384.addX xa xa (W384.slope xa xa ya ya) := by
  rw [addX_dbl xa ya hy]
  rw [div_eq_div_iff
    (pow_ne_zero 2 (mul_ne_zero (mul_ne_zero felem_two_ne hy) (pow_ne_zero 4 hz)))
    (mul_ne_zero felem_four_ne (pow_ne_zero 2 hy))]
  ring

/-- The Jacobian doubling output `y`, divided by `z_out³`, is the affine
doubled `y` coordinate. -/
theorem jac_dbl_y (xa ya z : Felem) (hz : z ≠ 0) (hy : ya ≠ 0) :
    z ^ 12 * (3 * (xa ^ 2 - 1) *
        (4 * xa * ya ^ 2 - (9 * (xa ^ 2 - 1) ^ 2 - 8 * xa * ya ^ 2)) -
      8 * ya ^ 4) / (2 * ya * z ^ 4) ^ 3 =
      W384.addY xa xa ya (W384.slope xa xa ya ya) := by
  rw [addY_dbl xa ya hy]
  rw [div_eq_div_iff
    (pow_ne_zero 3 (mul_ne_zero (mul_ne_zero felem_two_ne hy) (pow_ne_zero 4 hz)))
    (mul_ne_zero felem_eight_ne (pow_ne_zero 3 hy))]
  ring

/-- The Jacobian chord-addition output `x`, divided by `z_out²`, is the
affine chord-added `x` coordinate. -/
theorem jac_add_x (xa1 ya1 z1 xa2 ya2 z2 : Felem) (hz1 : z1 ≠ 0)
    (hz2 : z2 ≠ 0) (hx : xa1 ≠ xa2) :
    4 * (z1 * z2) ^ 6 * ((ya2 - ya1) ^ 2 - (xa2 - xa1) ^ 3 -
        2 * xa1 * (xa2 - xa1) ^ 2) / (2 * (xa2 - xa1) * (z1 * z2) ^ 3) ^ 2 =
      W384.addX xa1 xa2 (W384.slope xa1 xa2 ya1 ya2) := by
  rw [addX_chord xa1 xa2 ya1 ya2 hx]
  have hA : xa2 - xa1 ≠ 0 := sub_ne_zero.mpr (Ne.symm hx)
  rw [div_eq_div_iff
    (pow_ne_zero 2 (mul_ne_zero (mul_ne_zero felem_two_ne hA)
      (pow_ne_zero 3 (mul_ne_zero hz1 hz2))))
    (pow_ne_zero 2 (sub_ne_zero.mpr hx))]
  ring

/-- The Jacobian chord-addition output `y`, divided by `z_out³`, is the
affine chord-added `y` coordinate. -/
theorem jac_add_y (xa1 ya1 z1 xa2 ya2 z2 : Felem) (hz1 : z1 ≠ 0)
    (hz2 : z2 ≠ 0) (hx : xa1 ≠ xa2) :
    8 * (z1 * z2) ^ 9 * ((ya2 - ya1) * (xa1 * (xa2 - xa1) ^ 2 -
        ((ya2 - ya1) ^ 2 - (xa2 - xa1) ^ 3 - 2 * xa1 * (xa2 - xa1) ^ 2)) -
        ya1 * (xa2 - xa1) ^ 3) / (2 * (xa2 - xa1) * (z1 * z2) ^ 3) ^ 3 =
      W384.addY xa1 xa2 ya1 (W384.slope xa1 xa2 ya1 ya2) := by
  rw [addY_chord xa1 xa2 ya1 ya2 hx]
  have hA : xa2 - xa1 ≠ 0 := sub_ne_zero.mpr (Ne.symm hx)
  rw [div_eq_div_iff
    (pow_ne_zero 3 (mul_ne_zero (mul_ne_zero felem_two_ne hA)
      (pow_ne_zero 3 (mul_ne_zero hz1 hz2))))
    (pow_ne_zero 3 (sub_ne_zero.mpr hx))]
  ring

/-- The doubling formula on a Jacobian representative `(x·z², y·z³, z)`,
with all three outputs in factored form. -/
theorem fiat_p384_point_double_jac (xa ya z : Felem) :
    fiat_p384_point_double (xa * z ^ 2) (ya * z ^ 3) z =
      (z ^ 8 * (9 * (xa ^ 2 - 1) ^ 2 - 8 * xa * ya ^ 2),
       z ^ 12 * (3 * (xa ^ 2 - 1) *
           (4 * xa * ya ^ 2 - (9 * (xa ^ 2 - 1) ^ 2 - 8 * xa * ya ^ 2)) -
         8 * ya ^ 4),
       2 * ya * z ^ 4) := by
  simp only [fiat_p384_point_double, fiat_p384_square, fiat_p384_mul,
    fiat_p384_add, fiat_p384_sub, Prod.mk.injEq]
  refine ⟨by ring, by ring, by ring⟩

/-- The addition formula on Jacobian representatives of two affine points
with distinct `x` coordinates: the general-position branch is taken and
produces the add-2007-bl outputs in factored form. -/
theorem fiat_p384_point_add_jac_ne (xa1 ya1 z1 xa2 ya2 z2 : Felem)
    (hz1 : z1 ≠ 0) (hz2 : z2 ≠ 0) (hx : xa1 ≠ xa2) :
    fiat_p384_point_add (xa1 * z1 ^ 2) (ya1 * z1 ^ 3) z1 false
        (xa2 * z2 ^ 2) (ya2 * z2 ^ 3) z2 =
      (4 * (z1 * z2) ^ 6 * ((ya2 - ya1) ^ 2 - (xa2 - xa1) ^ 3 -
         2 * xa1 * (xa2 - xa1) ^ 2),
       8 * (z1 * z2) ^ 9 * ((ya2 - ya1) * (xa1 * (xa2 - xa1) ^ 2 -
           ((ya2 - ya1) ^ 2 - (xa2 - xa1) ^ 3 - 2 * xa1 * (xa2 - xa1) ^ 2)) -
         ya1 * (xa2 - xa1) ^ 3),
       2 * (xa2 - xa1) * (z1 * z2) ^ 3) := by
  have hh : xa2 * z2 ^ 2 * (z1 * z1) - xa1 * z1 ^ 2 * (z2 * z2) ≠ 0 := by
    have he : xa2 * z2 ^ 2 * (z1 * z1) - xa1 * z1 ^ 2 * (z2 * z2) =
        (xa2 - xa1) * (z1 * z2) ^ 2 := by ring
    rw [he]
    exact mul_ne_zero (sub_ne_zero.mpr (Ne.symm hx))
      (pow_ne_zero 2 (mul_ne_zero hz1 hz2))
  simp only [fiat_p384_point_add, fiat_p384_square, fiat_p384_mul,
    fiat_p384_add, fiat_p384_sub, fiat_p384_nz, fiat_p384_cmovznz,
    Bool.not_false, if_true, hh, hz1, hz2, decide_not, decide_eq_true_eq,
    ne_eq, not_true_eq_false, not_false_eq_true, decide_True, Bool.not_true,
    Bool.false_and, Bool.and_false, Bool.false_eq_true, if_false,
    Prod.mk.injEq]
  refine ⟨by ring, by ring, by ring⟩

/-- The `z` output of the doubling formula is always `2yz`. -/
theorem fiat_p384_point_double_z_out (x y z : Felem) :
    (fiat_p384_point_double x y z).2.2 = 2 * (y * z) := by
  simp only [fiat_p384_point_double, fiat_p384_square, fiat_p384_mul,
    fiat_p384_add, fiat_p384_sub]
  ring

/-- Adding representatives of two points with equal `x` but different `y`
coordinates (opposite points) outputs `z = 0`. -/
theorem fiat_p384_point_add_jac_opp (xa ya1 z1 ya2 z2 : Felem)
    (hz1 : z1 ≠ 0) (hz2 : z2 ≠ 0) (hy : ya1 ≠ ya2) :
    (fiat_p384_point_add (xa * z1 ^ 2) (ya1 * z1 ^ 3) z1 false
        (xa * z2 ^ 2) (ya2 * z2 ^ 3) z2).2.2 = 0 := by
  have hh0 : xa * z2 ^ 2 * (z1 * z1) - xa * z1 ^ 2 * (z2 * z2) = 0 := by ring
  have hr : ya2 * z2 ^ 3 * (z1 * (z1 * z1)) - z2 * (z2 * z2) * (ya1 * z1 ^ 3) +
      (ya2 * z2 ^ 3 * (z1 * (z1 * z1)) - z2 * (z2 * z2) * (ya1 * z1 ^ 3)) ≠ 0 := by
    have he : ya2 * z2 ^ 3 * (z1 * (z1 * z1)) - z2 * (z2 * z2) * (ya1 * z1 ^ 3) +
        (ya2 * z2 ^ 3 * (z1 * (z1 * z1)) - z2 * (z2 * z2) * (ya1 * z1 ^ 3)) =
        2 * (ya2 - ya1) * (z1 * z2) ^ 3 := by ring
    rw [he]
    exact mul_ne_zero (mul_ne_zero felem_two_ne (sub_ne_zero.mpr (Ne.symm hy)))
      (pow_ne_zero 3 (mul_ne_zero hz1 hz2))
  simp only [fiat_p384_point_add, fiat_p384_square, fiat_p384_mul,
    fiat_p384_add, fiat_p384_sub, fiat_p384_nz, fiat_p384_cmovznz,
    Bool.not_false, if_true, hh0, hr, hz1, hz2, decide_not,
    decide_eq_true_eq, ne_eq, not_true_eq_false, not_false_eq_true,
    decide_True, decide_False, Bool.not_true, Bool.false_and, Bool.and_false,
    Bool.true_and, Bool.and_true, Bool.false_eq_true, if_false,
    Bool.not_false, zero_mul, mul_zero]

/-- Adding representatives of the same affine point takes the
`is_nontrivial_double` branch and calls the doubling routine. -/
theorem fiat_p384_point_add_jac_dbl (xa ya z1 z2 : Felem)
    (hz1 : z1 ≠ 0) (hz2 : z2 ≠ 0) :
    fiat_p384_point_add (xa * z1 ^ 2) (ya * z1 ^ 3) z1 false
        (xa * z2 ^ 2) (ya * z2 ^ 3) z2 =
      fiat_p384_point_double (xa * z1 ^ 2) (ya * z1 ^ 3) z1 := by
  have hh0 : xa * z2 ^ 2 * (z1 * z1) - xa * z1 ^ 2 * (z2 * z2) = 0 := by ring
  have hr0 : ya * z2 ^ 3 * (z1 * (z1 * z1)) - z2 * (z2 * z2) * (ya * z1 ^ 3) +
      (ya * z2 ^ 3 * (z1 * (z1 * z1)) - z2 * (z2 * z2) * (ya * z1 ^ 3)) = 0 := by
    ring
  simp only [fiat_p384_point_add, fiat_p384_square, fiat_p384_mul,
    fiat_p384_add, fiat_p384_sub, fiat_p384_nz, fiat_p384_cmovznz,
    Bool.not_false, if_true, hh0, hr0, hz1, hz2, decide_not,
    decide_eq_true_eq, ne_eq, not_true_eq_false, not_false_eq_true,
    decide_True, decide_False, Bool.not_true, Bool.false_and, Bool.and_false,
    Bool.true_and, Bool.and_true, Bool.false_eq_true, if_false]

/-- Adding with `z1 = 0` returns the second operand (the `z1nz`-keyed
conditional moves). -/
theorem fiat_p384_point_add_z1_zero (x1 y1 x2 y2 z2 : Felem) (hz2 : z2 ≠ 0) :
    fiat_p384_point_add x1 y1 0 false x2 y2 z2 = (x2, y2, z2) := by
  simp only [fiat_p384_point_add, fiat_p384_square, fiat_p384_mul,
    fiat_p384_add, fiat_p384_sub, fiat_p384_nz, fiat_p384_cmovznz, hz2,
    decide_not, decide_eq_true_eq, ne_eq, not_true_eq_false,
    not_false_eq_true, decide_True, decide_False, Bool.not_true,
    Bool.not_false, Bool.false_and, Bool.and_false, Bool.true_and,
    Bool.and_true, Bool.false_eq_true, if_false, if_true]

/-- Adding with `z2 = 0` returns the first operand (the `z2nz`-keyed
conditional moves). -/
theorem fiat_p384_point_add_z2_zero (x1 y1 z1 x2 y2 : Felem) :
    fiat_p384_point_add x1 y1 z1 false x2 y2 0 = (x1, y1, z1) := by
  simp only [fiat_p384_point_add, fiat_p384_square, fiat_p384_mul,
    fiat_p384_add, fiat_p384_sub, fiat_p384_nz, fiat_p384_cmovznz,
    decide_not, decide_eq_true_eq, ne_eq, not_true_eq_false,
    not_false_eq_true, decide_True, decide_False, Bool.not_true,
    Bool.not_false, Bool.false_and, Bool.and_false, Bool.true_and,
    Bool.and_true, Bool.false_eq_true, if_false, if_true]

/-- Doubling a Jacobian representative represents the doubled point. -/
theorem JacRep_double {x y z : Felem} {Q : W384.Point} (h : JacRep x y z Q) :
    JacRep (fiat_p384_point_double x y z).1
      (fiat_p384_point_double x y z).2.1
      (fiat_p384_point_double x y z).2.2 (Q + Q) := by
  rcases h with ⟨hz, hQ⟩ | ⟨hz, hns, hQ⟩
  · refine Or.inl ⟨?_, by rw [hQ, add_zero]⟩
    rw [fiat_p384_point_double_z_out, hz, mul_zero, mul_zero]
  · have hx : x / z ^ 2 * z ^ 2 = x := div_mul_cancel₀ x (pow_ne_zero 2 hz)
    have hy : y / z ^ 3 * z ^ 3 = y := div_mul_cancel₀ y (pow_ne_zero 3 hz)
    by_cases hy0 : y / z ^ 3 = 0
    · refine Or.inl ⟨?_, ?_⟩
      · have hyz : y = 0 := by rw [← hy, hy0, zero_mul]
        rw [fiat_p384_point_double_z_out, hyz, zero_mul, mul_zero]
      · rw [hQ]
        exact WeierstrassCurve.Affine.Point.add_self_of_Y_eq (by
          simp only [WeierstrassCurve.Affine.negY, W384, hy0]; ring)
    · have hdj : fiat_p384_point_double x y z =
          fiat_p384_point_double (x / z ^ 2 * z ^ 2) (y / z ^ 3 * z ^ 3) z := by
        rw [hx, hy]
      rw [hdj, fiat_p384_point_double_jac]
      refine Or.inr ⟨mul_ne_zero (mul_ne_zero felem_two_ne hy0)
        (pow_ne_zero 4 hz), ?_⟩
      rw [hQ, WeierstrassCurve.Affine.Point.add_self_of_Y_ne
        (hyn_of (x / z ^ 2) (y / z ^ 3) hy0)]
      exact exists_some_of_eq (jac_dbl_x (x / z ^ 2) (y / z ^ 3) z hz hy0).symm
        (jac_dbl_y (x / z ^ 2) (y / z ^ 3) z hz hy0).symm
        (WeierstrassCurve.Affine.nonsingular_add hns hns
          (fun _ => hyn_of (x / z ^ 2) (y / z ^ 3) hy0))

/-- Adding Jacobian representatives of two affine nonsingular points
represents their sum, for all configurations of the two points. -/
theorem JacRep_add_affine (xa1 ya1 z1 xa2 ya2 z2 : Felem)
    (hz1 : z1 ≠ 0) (hz2 : z2 ≠ 0)
    (hns1 : W384.Nonsingular xa1 ya1) (hns2 : W384.Nonsingular xa2 ya2) :
    JacRep
      (fiat_p384_point_add (xa1 * z1 ^ 2) (ya1 * z1 ^ 3) z1 false
        (xa2 * z2 ^ 2) (ya2 * z2 ^ 3) z2).1
      (fiat_p384_point_add (xa1 * z1 ^ 2) (ya1 * z1 ^ 3) z1 false
        (xa2 * z2 ^ 2) (ya2 * z2 ^ 3) z2).2.1
      (fiat_p384_point_add (xa1 * z1 ^ 2) (ya1 * z1 ^ 3) z1 false
        (xa2 * z2 ^ 2) (ya2 * z2 ^ 3) z2).2.2
      (WeierstrassCurve.Affine.Point.some hns1 +
        WeierstrassCurve.Affine.Point.some hns2) := by
  by_cases hxx : xa1 = xa2
  · subst hxx
    by_cases hyy : ya1 = ya2
    · subst hyy
      rw [fiat_p384_point_add_jac_dbl xa1 ya1 z1 z2 hz1 hz2]
      have hrep : JacRep (xa1 * z1 ^ 2) (ya1 * z1 ^ 3) z1
          (WeierstrassCurve.Affine.Point.some hns1) := by
        refine Or.inr ⟨hz1, ?_⟩
        exact exists_some_of_eq
          (mul_div_cancel_right₀ xa1 (pow_ne_zero 2 hz1)).symm
          (mul_div_cancel_right₀ ya1 (pow_ne_zero 3 hz1)).symm hns1
      exact JacRep_double hrep
    · have hcases := WeierstrassCurve.Affine.Y_eq_of_X_eq hns1.1 hns2.1 rfl
      have hneg : ya1 = W384.negY xa1 ya2 := hcases.resolve_left hyy
      refine Or.inl ⟨?_, ?_⟩
      · exact fiat_p384_point_add_jac_opp xa1 ya1 z1 ya2 z2 hz1 hz2 hyy
      · exact WeierstrassCurve.Affine.Point.add_of_Y_eq rfl hneg
  · rw [fiat_p384_point_add_jac_ne xa1 ya1 z1 xa2 ya2 z2 hz1 hz2 hxx]
    refine Or.inr ⟨mul_ne_zero (mul_ne_zero felem_two_ne
      (sub_ne_zero.mpr (Ne.symm hxx)))
      (pow_ne_zero 3 (mul_ne_zero hz1 hz2)), ?_⟩
    rw [WeierstrassCurve.Affine.Point.add_of_X_ne hxx]
    exact exists_some_of_eq
      (jac_add_x xa1 ya1 z1 xa2 ya2 z2 hz1 hz2 hxx).symm
      (jac_add_y xa1 ya1 z1 xa2 ya2 z2 hz1 hz2 hxx).symm
      (WeierstrassCurve.Affine.nonsingular_add hns1 hns2
        (fun hc => absurd hc hxx))

/-- `fiat_p384_point_add` (non-mixed) is totally correct: it maps Jacobian
representatives of any two nonsingular points, including the identity and
all exceptional configurations, to a representative of their sum. -/
theorem JacRep_add {x1 y1 z1 x2 y2 z2 : Felem} {Q1 Q2 : W384.Point}
    (h1 : JacRep x1 y1 z1 Q1) (h2 : JacRep x2 y2 z2 Q2) :
    JacRep (fiat_p384_point_add x1 y1 z1 false x2 y2 z2).1
      (fiat_p384_point_add x1 y1 z1 false x2 y2 z2).2.1
      (fiat_p384_point_add x1 y1 z1 false x2 y2 z2).2.2 (Q1 + Q2) := by
  rcases h2 with ⟨hz2, hQ2⟩ | ⟨hz2, hns2, hQ2⟩
  · subst hz2
    rw [fiat_p384_point_add_z2_zero, hQ2, add_zero]
    exact h1
  · rcases h1 with ⟨hz1, hQ1⟩ | ⟨hz1, hns1, hQ1⟩
    · subst hz1
      rw [fiat_p384_point_add_z1_zero x1 y1 x2 y2 z2 hz2, hQ1, zero_add]
      exact Or.inr ⟨hz2, hns2, hQ2⟩
    · have hx1 : x1 / z1 ^ 2 * z1 ^ 2 = x1 := div_mul_cancel₀ x1 (pow_ne_zero 2 hz1)
      have hy1 : y1 / z1 ^ 3 * z1 ^ 3 = y1 := div_mul_cancel₀ y1 (pow_ne_zero 3 hz1)
      have hx2 : x2 / z2 ^ 2 * z2 ^ 2 = x2 := div_mul_cancel₀ x2 (pow_ne_zero 2 hz2)
      have hy2 : y2 / z2 ^ 3 * z2 ^ 3 = y2 := div_mul_cancel₀ y2 (pow_ne_zero 3 hz2)
      have key := JacRep_add_affine (x1 / z1 ^ 2) (y1 / z1 ^ 3) z1
        (x2 / z2 ^ 2) (y2 / z2 ^ 3) z2 hz1 hz2 hns1 hns2
      rw [hx1, hy1, hx2, hy2] at key
      rw [hQ1, hQ2]
      exact key

/-- `FIAT_P384_MUL_TABLE_SIZE` (p384.c:521): `32 >> 1 = 16`. -/
def FIAT_P384_MUL_TABLE_SIZE : ℕ := 16

/-- The on-the-fly table of `ec_GFp_nistp384_point_mul` (p384.c:634-652):
`p_pre_comp[0] = P` and `p_pre_comp[i] = [2]P + p_pre_comp[i-1]`, so
`p_pre_comp[i] = [2i+1]P`. -/
def fiat_p384_mul_table (P : Felem × Felem × Felem) :
    ℕ → Felem × Felem × Felem
  | 0 => P
  | i + 1 =>
    let tmp := fiat_p384_point_double P.1 P.2.1 P.2.2
    let prev := fiat_p384_mul_table P i
    fiat_p384_point_add tmp.1 tmp.2.1 tmp.2.2 false prev.1 prev.2.1 prev.2.2

/-- The table `p_pre_comp` as the list scanned by
`fiat_p384_select_point` (p384.c:661, 679). -/
def p_pre_comp (P : Felem × Felem × Felem) : List (Felem × Felem × Felem) :=
  (List.range FIAT_P384_MUL_TABLE_SIZE).map (fiat_p384_mul_table P)

/-- One iteration of the digit loop of `ec_GFp_nistp384_point_mul`
(p384.c:665-692): five doublings, then constant-time selection of the
table point for `abs(d)`, conditional negation of its `y` coordinate, and
accumulation.  The `int8_t` operations on the digit `d` are modelled on
`ℤ` (on which the bitwise operations agree with two's complement):
`d >> 7` is flooring division by `2^7`, `& 1` is the Euclidean remainder
mod 2, `(d ^ -is_neg) + is_neg` is `Int.xor`, and `d >> 1` on the
non-negative result is division by 2. -/
def fiat_p384_point_mul_step (pre : List (Felem × Felem × Felem)) (d : ℤ)
    (res : Felem × Felem × Felem) : Felem × Felem × Felem :=
  let res1 := fiat_p384_point_double res.1 res.2.1 res.2.2
  let res2 := fiat_p384_point_double res1.1 res1.2.1 res1.2.2
  let res3 := fiat_p384_point_double res2.1 res2.2.1 res2.2.2
  let res4 := fiat_p384_point_double res3.1 res3.2.1 res3.2.2
  let res5 := fiat_p384_point_double res4.1 res4.2.1 res4.2.2
  let is_neg := d / 2 ^ 7 % 2
  let dabs := Int.xor d (-is_neg) + is_neg
  let idx := (dabs / 2).toNat
  let tmp := fiat_p384_select_point idx pre
  let ftmp := fiat_p384_opp tmp.2.1
  let tmpy := fiat_p384_cmovznz (decide (is_neg ≠ 0)) tmp.2.1 ftmp
  fiat_p384_point_add res5.1 res5.2.1 res5.2.2 false tmp.1 tmpy tmp.2.2

/-- The digit loop of `ec_GFp_nistp384_point_mul` (p384.c:665-692),
processing digits `i-1, i-2, ..., 0`. -/
def fiat_p384_point_mul_loop (pre : List (Felem × Felem × Felem))
    (rnaf : List ℤ) : ℕ → Felem × Felem × Felem → Felem × Felem × Felem
  | 0, res => res
  | i + 1, res =>
    fiat_p384_point_mul_loop pre rnaf i
      (fiat_p384_point_mul_step pre (rnaf.getD i 0) res)

/-- `ec_GFp_nistp384_point_mul` (p384.c:627-709): build the table of odd
multiples, recode the scalar, select the top-digit point, run the digit
loop, and compensate for an even scalar by a constant-time select between
`res` and `res + (-P)` keyed on `scalar[0] & 1`. -/
def ec_GFp_nistp384_point_mul (px py pz : Felem) (scalar : List ℕ) :
    Felem × Felem × Felem :=
  let pre := p_pre_comp (px, py, pz)
  let rnaf := fiat_p384_mul_scalar_rwnaf scalar
  let idx := (rnaf.getD 76 0 / 2).toNat
  let res0 := fiat_p384_select_point idx pre
  let res := fiat_p384_point_mul_loop pre rnaf 76 res0
  let tmp := fiat_p384_point_add res.1 res.2.1 res.2.2 false px
    (fiat_p384_opp py) pz
  let bit := scalar.getD 0 0 % 2
  (fiat_p384_cmovznz (decide (bit ≠ 0)) tmp.1 res.1,
   fiat_p384_cmovznz (decide (bit ≠ 0)) tmp.2.1 res.2.1,
   fiat_p384_cmovznz (decide (bit ≠ 0)) tmp.2.2 res.2.2)

/-- Exhaustive check of the branchless `int8_t` absolute-value and index
computation over the odd digit range `[-31, 31]`, shifted to `Fin 63`. -/
theorem rwnaf_digit_abs_fin : ∀ k : Fin 63, ((k : ℤ) - 31) % 2 = 1 →
    0 ≤ Int.xor ((k : ℤ) - 31) (-(((k : ℤ) - 31) / 2 ^ 7 % 2)) +
        ((k : ℤ) - 31) / 2 ^ 7 % 2 ∧
      Int.xor ((k : ℤ) - 31) (-(((k : ℤ) - 31) / 2 ^ 7 % 2)) +
          ((k : ℤ) - 31) / 2 ^ 7 % 2 ≤ 31 ∧
      2 * ((Int.xor ((k : ℤ) - 31) (-(((k : ℤ) - 31) / 2 ^ 7 % 2)) +
          ((k : ℤ) - 31) / 2 ^ 7 % 2) / 2) + 1 =
        Int.xor ((k : ℤ) - 31) (-(((k : ℤ) - 31) / 2 ^ 7 % 2)) +
          ((k : ℤ) - 31) / 2 ^ 7 % 2 ∧
      ((((k : ℤ) - 31) / 2 ^ 7 % 2 = 0 ∧
          Int.xor ((k : ℤ) - 31) (-(((k : ℤ) - 31) / 2 ^ 7 % 2)) +
            ((k : ℤ) - 31) / 2 ^ 7 % 2 = (k : ℤ) - 31) ∨
        (((k : ℤ) - 31) / 2 ^ 7 % 2 ≠ 0 ∧
          Int.xor ((k : ℤ) - 31) (-(((k : ℤ) - 31) / 2 ^ 7 % 2)) +
            ((k : ℤ) - 31) / 2 ^ 7 % 2 = -((k : ℤ) - 31))) := by
  decide

/-- The digit-magnitude computation of the multiplication loop, for odd
digits in `[-31, 31]`. -/
theorem rwnaf_digit_abs (d : ℤ) (hodd : d % 2 = 1) (hlo : -31 ≤ d)
    (hhi : d ≤ 31) :
    0 ≤ Int.xor d (-(d / 2 ^ 7 % 2)) + d / 2 ^ 7 % 2 ∧
      Int.xor d (-(d / 2 ^ 7 % 2)) + d / 2 ^ 7 % 2 ≤ 31 ∧
      2 * ((Int.xor d (-(d / 2 ^ 7 % 2)) + d / 2 ^ 7 % 2) / 2) + 1 =
        Int.xor d (-(d / 2 ^ 7 % 2)) + d / 2 ^ 7 % 2 ∧
      ((d / 2 ^ 7 % 2 = 0 ∧
          Int.xor d (-(d / 2 ^ 7 % 2)) + d / 2 ^ 7 % 2 = d) ∨
        (d / 2 ^ 7 % 2 ≠ 0 ∧
          Int.xor d (-(d / 2 ^ 7 % 2)) + d / 2 ^ 7 % 2 = -d)) := by
  have hk : ∃ k : Fin 63, (k : ℤ) - 31 = d := by
    refine ⟨⟨(d + 31).toNat, by omega⟩, ?_⟩
    push_cast
    omega
  obtain ⟨k, hk⟩ := hk
  rw [← hk] at hodd ⊢
  exact rwnaf_digit_abs_fin k hodd

/-- Selecting index `i < 16` from the table returns entry `i`. -/
theorem p_pre_comp_get (P : Felem × Felem × Felem) (i : ℕ) (h : i < 16) :
    fiat_p384_select_point i (p_pre_comp P) = fiat_p384_mul_table P i := by
  have hlen : i - 0 < (p_pre_comp P).length := by
    simp [p_pre_comp, FIAT_P384_MUL_TABLE_SIZE]
    omega
  have := fiat_p384_select_point_loop_get i (p_pre_comp P) 0 (0, 0, 0)
    (Nat.zero_le i) hlen
  rw [fiat_p384_select_point, this]
  simp [p_pre_comp]

/-- Entry `i` of the table represents `[2i+1]P`. -/
theorem fiat_p384_mul_table_rep (P : Felem × Felem × Felem)
    (Q : W384.Point) (h : JacRep P.1 P.2.1 P.2.2 Q) :
    ∀ i : ℕ, JacRep (fiat_p384_mul_table P i).1
      (fiat_p384_mul_table P i).2.1 (fiat_p384_mul_table P i).2.2
      ((2 * (i : ℤ) + 1) • Q) := by
  intro i
  induction i with
  | zero =>
    have he : (2 * ((0 : ℕ) : ℤ) + 1) • Q = Q := by
      norm_num
    rw [he]
    exact h
  | succ i ih =>
    have hd := JacRep_double h
    have hs := JacRep_add hd ih
    have he : (2 * ((i + 1 : ℕ) : ℤ) + 1) • Q =
        (Q + Q) + (2 * (i : ℤ) + 1) • Q := by
      rw [← two_zsmul, ← add_zsmul]
      congr 1
      push_cast
      ring
    rw [he]
    simp only [fiat_p384_mul_table]
    exact hs

/-- One loop iteration maps a representative of `R` to a representative
of `[32]R + [d]Q`, for any odd digit `d ∈ [-31, 31]`. -/
theorem fiat_p384_point_mul_step_rep (P : Felem × Felem × Felem)
    (Q : W384.Point) (hP : JacRep P.1 P.2.1 P.2.2 Q) (d : ℤ)
    (hodd : d % 2 = 1) (hlo : -31 ≤ d) (hhi : d ≤ 31)
    (res : Felem × Felem × Felem) (R : W384.Point)
    (hres : JacRep res.1 res.2.1 res.2.2 R) :
    JacRep (fiat_p384_point_mul_step (p_pre_comp P) d res).1
      (fiat_p384_point_mul_step (p_pre_comp P) d res).2.1
      (fiat_p384_point_mul_step (p_pre_comp P) d res).2.2
      ((32 : ℤ) • R + d • Q) := by
  obtain ⟨h0, h31, hodd2, hcase⟩ := rwnaf_digit_abs d hodd hlo hhi
  have h1 := JacRep_double hres
  rw [← two_zsmul] at h1
  have h2 := JacRep_double h1
  rw [← two_zsmul, smul_smul] at h2
  have h3 := JacRep_double h2
  rw [← two_zsmul, smul_smul] at h3
  have h4 := JacRep_double h3
  rw [← two_zsmul, smul_smul] at h4
  have h5 := JacRep_double h4
  rw [← two_zsmul, smul_smul] at h5
  have h32e : ((2 : ℤ) * (2 * (2 * (2 * 2)))) = 32 := by norm_num
  rw [h32e] at h5
  have hidx : ((Int.xor d (-(d / 2 ^ 7 % 2)) + d / 2 ^ 7 % 2) / 2).toNat < 16 := by
    omega
  have htab := fiat_p384_mul_table_rep P Q hP
    (((Int.xor d (-(d / 2 ^ 7 % 2)) + d / 2 ^ 7 % 2) / 2).toNat)
  rw [← p_pre_comp_get P _ hidx] at htab
  have hco : (2 * ((((Int.xor d (-(d / 2 ^ 7 % 2)) + d / 2 ^ 7 % 2) / 2).toNat : ℤ)) + 1) =
      Int.xor d (-(d / 2 ^ 7 % 2)) + d / 2 ^ 7 % 2 := by
    rw [Int.toNat_of_nonneg (by omega)]
    exact hodd2
  rw [hco] at htab
  rcases hcase with ⟨hneg0, habs⟩ | ⟨hneg1, habs⟩
  · have hdec : (decide (d / 2 ^ 7 % 2 ≠ 0)) = false := by rw [hneg0]; decide
    simp only [fiat_p384_point_mul_step, hdec, fiat_p384_cmovznz,
      Bool.false_eq_true, if_false]
    rw [habs] at htab ⊢
    exact JacRep_add h5 htab
  · have hdec : (decide (d / 2 ^ 7 % 2 ≠ 0)) = true := by
      simp only [decide_eq_true_eq]
      exact hneg1
    simp only [fiat_p384_point_mul_step, hdec, fiat_p384_cmovznz,
      eq_self_iff_true, if_true]
    have htabn := JacRep_neg htab
    rw [habs] at htabn ⊢
    rw [neg_smul, neg_neg] at htabn
    exact JacRep_add h5 htabn

/-- The rwnaf digit list reads digit `i < 76` as `window_i % 64 - 32`. -/
theorem rnaf_getD_lt (l : List ℕ) (i : ℕ) (h : i < 76) :
    (fiat_p384_mul_scalar_rwnaf l).getD i 0 = rwnaf_window l i % 64 - 32 := by
  unfold fiat_p384_mul_scalar_rwnaf
  rw [List.getD_append _ _ _ _ (by simpa using h)]
  rw [getD_range_map, if_pos h]

/-- The rwnaf digit list reads digit 76 as the final window. -/
theorem rnaf_getD76 (l : List ℕ) :
    (fiat_p384_mul_scalar_rwnaf l).getD 76 0 = rwnaf_window l 76 := by
  unfold fiat_p384_mul_scalar_rwnaf
  have h := getD_append_snoc_length (rwnaf_window l 76) 0
    (List.map (fun i => rwnaf_window l i % 64 - 32) (List.range 76))
  simpa using h

/-- Digits `i < 76` of the recoded scalar are odd and lie in `[-31, 31]`. -/
theorem rnaf_digit_facts (l : List ℕ) (hs : ScalarBytes l) (i : ℕ) :
    (rwnaf_window l i % 64 - 32) % 2 = 1 ∧
      -31 ≤ rwnaf_window l i % 64 - 32 ∧ rwnaf_window l i % 64 - 32 ≤ 31 := by
  rw [rwnaf_window_closed l hs i]
  have hmlt : (scalar_forced_odd (bytes_val l) / 2 ^ (5 * i + 1)) % 32 < 32 :=
    Nat.mod_lt _ (by norm_num)
  have hcast :
      (((scalar_forced_odd (bytes_val l) / 2 ^ (5 * i + 1)) % 32 : ℕ) : ℤ) < 32 := by
    exact_mod_cast hmlt
  have hcast0 :
      (0 : ℤ) ≤ (((scalar_forced_odd (bytes_val l) / 2 ^ (5 * i + 1)) % 32 : ℕ) : ℤ) :=
    Int.natCast_nonneg _
  omega

/-- Loop invariant: running `i` iterations from a representative of `R`
yields a representative of `[32^i]R + [Σ_{j<i} d_j·32^j]Q`. -/
theorem fiat_p384_point_mul_loop_rep (P : Felem × Felem × Felem)
    (Q : W384.Point) (hP : JacRep P.1 P.2.1 P.2.2 Q) (l : List ℕ)
    (hs : ScalarBytes l) :
    ∀ i : ℕ, i ≤ 76 → ∀ (res : Felem × Felem × Felem) (R : W384.Point),
      JacRep res.1 res.2.1 res.2.2 R →
      JacRep (fiat_p384_point_mul_loop (p_pre_comp P)
          (fiat_p384_mul_scalar_rwnaf l) i res).1
        (fiat_p384_point_mul_loop (p_pre_comp P)
          (fiat_p384_mul_scalar_rwnaf l) i res).2.1
        (fiat_p384_point_mul_loop (p_pre_comp P)
          (fiat_p384_mul_scalar_rwnaf l) i res).2.2
        (((32 : ℤ) ^ i) • R +
          (wsum 32 ((List.range i).map
            (fun j => rwnaf_window l j % 64 - 32))) • Q) := by
  intro i
  induction i with
  | zero =>
    intro _ res R hres
    simp only [fiat_p384_point_mul_loop, List.range_zero, List.map_nil,
      wsum, pow_zero, one_zsmul, zero_zsmul, add_zero]
    exact hres
  | succ i ih =>
    intro hle res R hres
    have hilt : i < 76 := by omega
    have hgetD := rnaf_getD_lt l i hilt
    obtain ⟨hd_odd, hd_lo, hd_hi⟩ := rnaf_digit_facts l hs i
    rw [← hgetD] at hd_odd hd_lo hd_hi
    have hstep := fiat_p384_point_mul_step_rep P Q hP
      ((fiat_p384_mul_scalar_rwnaf l).getD i 0) hd_odd hd_lo hd_hi res R hres
    have hrec := ih (by omega)
      (fiat_p384_point_mul_step (p_pre_comp P)
        ((fiat_p384_mul_scalar_rwnaf l).getD i 0) res)
      ((32 : ℤ) • R + (fiat_p384_mul_scalar_rwnaf l).getD i 0 • Q) hstep
    have hS : wsum 32 ((List.range (i + 1)).map
        (fun j => rwnaf_window l j % 64 - 32)) =
        wsum 32 ((List.range i).map (fun j => rwnaf_window l j % 64 - 32)) +
          32 ^ i * (fiat_p384_mul_scalar_rwnaf l).getD i 0 := by
      rw [List.range_succ, List.map_append, List.map_cons, List.map_nil,
        wsum_append_single, List.length_map, List.length_range, ← hgetD]
    have halg : ((32 : ℤ) ^ i) •
          ((32 : ℤ) • R + (fiat_p384_mul_scalar_rwnaf l).getD i 0 • Q) +
          (wsum 32 ((List.range i).map
            (fun j => rwnaf_window l j % 64 - 32))) • Q =
        ((32 : ℤ) ^ (i + 1)) • R +
          (wsum 32 ((List.range i).map (fun j => rwnaf_window l j % 64 - 32)) +
            32 ^ i * (fiat_p384_mul_scalar_rwnaf l).getD i 0) • Q := by
      rw [zsmul_add, ← mul_zsmul, ← mul_zsmul, add_zsmul, pow_succ]
      abel
    simp only [fiat_p384_point_mul_loop]
    rw [hS, ← halg]
    exact hrec

/-- The low bit the code reads from `scalar->bytes[0]` is the parity of
the scalar value. -/
theorem bytes_getD0_parity (l : List ℕ) :
    l.getD 0 0 % 2 = bytes_val l % 2 := by
  rcases l with _ | ⟨b, bs⟩
  · simp [bytes_val]
  · simp only [List.getD_cons_zero, bytes_val]
    omega

/-- **C1**: for every Jacobian representative of a point `Q` on the P-384
curve (including the identity) and every scalar given as 48 little-endian
bytes, `ec_GFp_nistp384_point_mul` outputs a Jacobian representative of
the curve point `[s]Q`, where `s` is the value of the byte buffer; in
particular the even-scalar compensation (computing `R + (-P)` and
selecting it exactly when `s` is even) makes the result correct for even
as well as odd scalars.  (The claim's bound `s < n` is not needed: the
theorem holds for every 48-byte scalar value.) -/
theorem ec_GFp_nistp384_point_mul_spec (l : List ℕ) (hs : ScalarBytes l)
    (px py pz : Felem) (Q : W384.Point) (hrep : JacRep px py pz Q) :
    JacRep (ec_GFp_nistp384_point_mul px py pz l).1
      (ec_GFp_nistp384_point_mul px py pz l).2.1
      (ec_GFp_nistp384_point_mul px py pz l).2.2
      ((bytes_val l : ℤ) • Q) := by
  have hP : JacRep (px, py, pz).1 (px, py, pz).2.1 (px, py, pz).2.2 Q := hrep
  have hslt : bytes_val l < 2 ^ 384 := by
    have := bytes_val_lt l hs.2
    rw [hs.1] at this
    calc bytes_val l < 256 ^ 48 := this
    _ = 2 ^ 384 := by norm_num
  have hso_lt : scalar_forced_odd (bytes_val l) < 2 ^ 384 := by
    unfold scalar_forced_odd
    omega
  set μ := scalar_forced_odd (bytes_val l) / 2 ^ 381 with hμ
  have hμ8 : μ < 8 := by
    rw [hμ]
    refine Nat.div_lt_of_lt_mul ?_
    calc scalar_forced_odd (bytes_val l) < 2 ^ 384 := hso_lt
    _ = 2 ^ 381 * 8 := by norm_num
  have hw76 : rwnaf_window l 76 = 2 * (μ : ℤ) + 1 := by
    rw [rwnaf_window_closed l hs 76]
    have e1 : 5 * 76 + 1 = 381 := by norm_num
    rw [e1, Nat.mod_eq_of_lt (by omega)]
  have hidx_eq : ((fiat_p384_mul_scalar_rwnaf l).getD 76 0 / 2).toNat = μ := by
    rw [rnaf_getD76, hw76]
    omega
  have hres0 : JacRep
      (fiat_p384_select_point
        ((fiat_p384_mul_scalar_rwnaf l).getD 76 0 / 2).toNat
        (p_pre_comp (px, py, pz))).1
      (fiat_p384_select_point
        ((fiat_p384_mul_scalar_rwnaf l).getD 76 0 / 2).toNat
        (p_pre_comp (px, py, pz))).2.1
      (fiat_p384_select_point
        ((fiat_p384_mul_scalar_rwnaf l).getD 76 0 / 2).toNat
        (p_pre_comp (px, py, pz))).2.2
      ((2 * (μ : ℤ) + 1) • Q) := by
    rw [hidx_eq, p_pre_comp_get (px, py, pz) μ (by omega)]
    exact fiat_p384_mul_table_rep (px, py, pz) Q hP μ
  have hloop := fiat_p384_point_mul_loop_rep (px, py, pz) Q hP l hs 76
    le_rfl
    (fiat_p384_select_point
      ((fiat_p384_mul_scalar_rwnaf l).getD 76 0 / 2).toNat
      (p_pre_comp (px, py, pz)))
    ((2 * (μ : ℤ) + 1) • Q) hres0
  have hcoef : ((32 : ℤ) ^ 76) • ((2 * (μ : ℤ) + 1) • Q) +
      (wsum 32 ((List.range 76).map
        (fun j => rwnaf_window l j % 64 - 32))) • Q =
      ((scalar_forced_odd (bytes_val l) : ℕ) : ℤ) • Q := by
    rw [← mul_zsmul, rwnaf_partial_sum l hs 76, ← add_zsmul]
    congr 1
    rw [int_pow32]
    have e2 : 5 * 76 + 1 = 381 := by norm_num
    have e3 : 5 * 76 = 380 := by norm_num
    rw [e2, e3]
    set B : ℤ := ((scalar_forced_odd (bytes_val l) % 2 ^ 381 : ℕ) : ℤ) with hB
    have hdm := Nat.div_add_mod (scalar_forced_odd (bytes_val l)) (2 ^ 381)
    have key : ((scalar_forced_odd (bytes_val l) : ℕ) : ℤ) =
        2 ^ 381 * (μ : ℤ) + B := by
      rw [hμ, hB]
      exact_mod_cast hdm.symm
    rw [key]
    have p2 : (2 : ℤ) ^ 381 = 2 * 2 ^ 380 := by norm_num
    rw [p2]
    ring
  rw [hcoef] at hloop
  have hcomp := JacRep_add hloop (JacRep_neg hrep)
  have hcompco : ((scalar_forced_odd (bytes_val l) : ℕ) : ℤ) • Q + -Q =
      (((scalar_forced_odd (bytes_val l) : ℕ) : ℤ) - 1) • Q := by
    rw [sub_eq_add_neg, add_zsmul, neg_zsmul, one_zsmul]
  rw [hcompco] at hcomp
  have hb0 := bytes_getD0_parity l
  by_cases hpar : bytes_val l % 2 = 0
  · have hz : l.getD 0 0 % 2 = 0 := by omega
    have hdec : decide (l.getD 0 0 % 2 ≠ 0) = false := by
      rw [hz]
      decide
    simp only [ec_GFp_nistp384_point_mul, hdec, fiat_p384_cmovznz,
      Bool.false_eq_true, if_false]
    have hco2 : (((scalar_forced_odd (bytes_val l) : ℕ) : ℤ) - 1) =
        ((bytes_val l : ℕ) : ℤ) := by
      unfold scalar_forced_odd
      push_cast
      omega
    rw [hco2] at hcomp
    exact hcomp
  · have hdec : decide (l.getD 0 0 % 2 ≠ 0) = true := by
      simp only [decide_eq_true_eq]
      omega
    simp only [ec_GFp_nistp384_point_mul, hdec, fiat_p384_cmovznz,
      eq_self_iff_true, if_true]
    have hco2 : ((scalar_forced_odd (bytes_val l) : ℕ) : ℤ) =
        ((bytes_val l : ℕ) : ℤ) := by
      unfold scalar_forced_odd
      push_cast
      omega
    rw [hco2] at hloop
    exact hloop

/-- Witness for C1 at the zero scalar and the Jacobian identity
`(0, 0, 0)`. -/
theorem ec_GFp_nistp384_point_mul_spec_witness :
    ScalarBytes (List.replicate 48 0) ∧
    JacRep (ec_GFp_nistp384_point_mul 0 0 0 (List.replicate 48 0)).1
      (ec_GFp_nistp384_point_mul 0 0 0 (List.replicate 48 0)).2.1
      (ec_GFp_nistp384_point_mul 0 0 0 (List.replicate 48 0)).2.2
      ((bytes_val (List.replicate 48 0) : ℤ) • (0 : W384.Point)) :=
  ⟨⟨by decide, by decide⟩,
   ec_GFp_nistp384_point_mul_spec (List.replicate 48 0) ⟨by decide, by decide⟩
     0 0 0 0 (Or.inl ⟨rfl, rfl⟩)⟩
